import Mathlib

/-!
Verification of the biometric-terminal communication subsystem of the
PCM_Assets repository (FastAPI application, `app/routers/biometric.py`,
persistence model in `models.py`, session configuration in `database.py`).

The embedding below translates the handler code into pure Lean functions.
Conventions of the embedding:

* Python strings are modelled as `List Char` (the request body after
  `raw.decode("utf-8", errors="replace")`); helper functions `pyStrip`,
  `pySplitlines`, `pySplitOnChar`, `pyParseInt` model the corresponding
  CPython behaviours (`str.strip`, `str.splitlines`, `str.split(sep)`,
  `int(str)`) on the character sets that actually occur on this wire
  protocol (ASCII plus the common Unicode whitespace/linebreak code
  points; exotic Unicode decimal digits accepted by CPython `int` are
  not modelled).
* The SQLAlchemy session is created by
  `sessionmaker(autocommit=False, autoflush=False)` (`database.py`), so
  inside one request every `db.query(...)` runs SQL against the
  committed database state: rows added with `db.add(...)` earlier in the
  same batch are pending and invisible to the queries, while an object
  already loaded and mutated in the same batch is returned again by a
  query whose SQL filter still matches the committed column values
  (identity map).  The batch processor below keeps the committed
  snapshot for queries and a separate view of current objects plus
  pending inserts, exactly mirroring that behaviour.
* Database-generated columns (`id`, `received_at`, `created_at`) and
  wall-clock timestamps (`datetime.now`) are not modelled; no claim
  refers to them.
-/

namespace PCMAssets

/-- Characters stripped by CPython `str.strip()` (Unicode whitespace as
recognised by `str.isspace`). -/
def pyIsSpace (c : Char) : Bool :=
  c = ' ' || c = '\t' || c = '\n' || c = '\r' || c = '\x0b' || c = '\x0c' ||
  c = '\x1c' || c = '\x1d' || c = '\x1e' || c = '\x1f' || c = '\x85' ||
  c = '\xa0' || c = '\u1680' ||
  (0x2000 ≤ c.toNat && c.toNat ≤ 0x200a) ||
  c = '\u2028' || c = '\u2029' || c = '\u202f' || c = '\u205f' || c = '\u3000'

/-- CPython `str.strip()`: drop leading and trailing whitespace. -/
def pyStrip (l : List Char) : List Char :=
  ((l.dropWhile pyIsSpace).reverse.dropWhile pyIsSpace).reverse

/-- Line-break characters recognised by CPython `str.splitlines()`. -/
def pyIsLineBreak (c : Char) : Bool :=
  c = '\n' || c = '\r' || c = '\x0b' || c = '\x0c' ||
  c = '\x1c' || c = '\x1d' || c = '\x1e' || c = '\x85' ||
  c = '\u2028' || c = '\u2029'

/-- Worker for `pySplitlines`; `acc` holds the current line reversed. -/
def pySplitlinesAux : List Char → List Char → List (List Char)
  | [], acc => if acc.isEmpty then [] else [acc.reverse]
  | '\r' :: '\n' :: rest, acc => acc.reverse :: pySplitlinesAux rest []
  | c :: rest, acc =>
      if pyIsLineBreak c then acc.reverse :: pySplitlinesAux rest []
      else pySplitlinesAux rest (c :: acc)

/-- CPython `str.splitlines()`: split at line boundaries, no trailing
empty line for a terminal line break. -/
def pySplitlines (l : List Char) : List (List Char) :=
  pySplitlinesAux l []

/-- CPython `str.split(sep)` for a one-character separator: keeps empty
fields, `"" → [""]`. -/
def pySplitOnChar (sep : Char) : List Char → List (List Char)
  | [] => [[]]
  | c :: rest =>
      let groups := pySplitOnChar sep rest
      if c = sep then [] :: groups
      else
        match groups with
        | g :: gs => (c :: g) :: gs
        | [] => [[c]]

/-- Decimal value of an ASCII digit. -/
def digitVal (c : Char) : Nat := c.toNat - 48

/-- Digits of a CPython integer literal after the first digit: decimal
digits with single underscores allowed between digits. -/
def pyParseDigitsAux : List Char → Nat → Option Nat
  | [], acc => some acc
  | c :: rest, acc =>
      if c.isDigit then pyParseDigitsAux rest (acc * 10 + digitVal c)
      else if c = '_' then
        match rest with
        | d :: rest2 =>
            if d.isDigit then pyParseDigitsAux rest2 (acc * 10 + digitVal d)
            else none
        | [] => none
      else none

/-- Nonempty digit group with optional single underscores between digits. -/
def pyParseUDec : List Char → Option Nat
  | [] => none
  | c :: rest => if c.isDigit then pyParseDigitsAux rest (digitVal c) else none

/-- CPython `int(str)`: strip whitespace, optional single sign, decimal
digits with underscore separators.  Returns `none` where CPython raises
`ValueError`. -/
def pyParseInt (l : List Char) : Option Int :=
  match pyStrip l with
  | '+' :: rest => (pyParseUDec rest).map Int.ofNat
  | '-' :: rest => (pyParseUDec rest).map (fun n => -(n : Int))
  | rest => (pyParseUDec rest).map Int.ofNat

/-- A naive `datetime.datetime` value (no timezone), as stored by the
subsystem. -/
structure PyDateTime where
  year : Nat
  month : Nat
  day : Nat
  hour : Nat
  minute : Nat
  second : Nat
deriving DecidableEq, Repr

/-- Gregorian leap year, as used by `datetime`. -/
def isLeapYear (y : Nat) : Bool :=
  (y % 4 = 0 && y % 100 ≠ 0) || y % 400 = 0

/-- Days in a month, as validated by the `datetime` constructor. -/
def daysInMonth (y m : Nat) : Nat :=
  if m = 2 then (if isLeapYear y then 29 else 28)
  else if m = 4 || m = 6 || m = 9 || m = 11 then 30
  else 31

/-- Range validation performed by the `datetime.datetime` constructor. -/
def validDateTime (t : PyDateTime) : Bool :=
  1 ≤ t.year && t.year ≤ 9999 &&
  1 ≤ t.month && t.month ≤ 12 &&
  1 ≤ t.day && t.day ≤ daysInMonth t.year t.month &&
  t.hour ≤ 23 && t.minute ≤ 59 && t.second ≤ 59

/-- Greedy 1-2 digit field of `strptime` (`%m`, `%d`, `%H`, `%M`, `%S`);
the following literal separator is never a digit, so greedy matching
without backtracking is equivalent to the regex. -/
def takeOneOrTwoDigits : List Char → Option (Nat × List Char)
  | [] => none
  | [d] => if d.isDigit then some (digitVal d, []) else none
  | d1 :: d2 :: rest =>
      if d1.isDigit then
        if d2.isDigit then some (digitVal d1 * 10 + digitVal d2, rest)
        else some (digitVal d1, d2 :: rest)
      else none

/-- Expect a literal separator character. -/
def expectChar (c : Char) : List Char → Option (List Char)
  | [] => none
  | x :: rest => if x = c then some rest else none

/-- Body of `strptime(s, "%Y-%m-%d %H:%M:%S")` after stripping: a
four-digit year, then the five greedy 1-2 digit fields between the
literal separators, matching the whole string; followed by the
`datetime` constructor range checks. -/
def parseStrptimeCore (s : List Char) : Option PyDateTime :=
  match s with
  | y1 :: y2 :: y3 :: y4 :: rest =>
      if y1.isDigit && y2.isDigit && y3.isDigit && y4.isDigit then
        let y := ((digitVal y1 * 10 + digitVal y2) * 10 + digitVal y3) * 10 + digitVal y4
        match expectChar '-' rest with
        | none => none
        | some r1 =>
          match takeOneOrTwoDigits r1 with
          | none => none
          | some (m, r2) =>
            match expectChar '-' r2 with
            | none => none
            | some r3 =>
              match takeOneOrTwoDigits r3 with
              | none => none
              | some (d, r4) =>
                match expectChar ' ' r4 with
                | none => none
                | some r5 =>
                  match takeOneOrTwoDigits r5 with
                  | none => none
                  | some (h, r6) =>
                    match expectChar ':' r6 with
                    | none => none
                    | some r7 =>
                      match takeOneOrTwoDigits r7 with
                      | none => none
                      | some (mi, r8) =>
                        match expectChar ':' r8 with
                        | none => none
                        | some r9 =>
                          match takeOneOrTwoDigits r9 with
                          | none => none
                          | some (sec, r10) =>
                            if r10.isEmpty then
                              let t : PyDateTime := ⟨y, m, d, h, mi, sec⟩
                              if validDateTime t then some t else none
                            else none
      else none
  | _ => none

/-- `parse_iclock_datetime` (`biometric.py`): empty string rejected,
else `datetime.strptime(dt_str.strip(), "%Y-%m-%d %H:%M:%S")`, with
`None` on `ValueError`. -/
def parse_iclock_datetime (dt_str : List Char) : Option PyDateTime :=
  if dt_str.isEmpty then none
  else parseStrptimeCore (pyStrip dt_str)

/-! ## Data model (`models.py`)

`AttendanceLog` carries the columns written by the ingestor; the
database-generated `id` and `received_at` columns are omitted.  The
table declares indexes on `pin` and `timestamp` but **no** unique
constraint (`models.py` lines 120-138 contain no `__table_args__`, cf.
`uq_users_email` on `users`); the unique-constraint list below is the
translation of that declaration. -/

/-- One stored attendance event (`attendance_logs` row). -/
structure AttendanceLog where
  pin : String
  timestamp : PyDateTime
  status : Int
  verify_type : Int
  verify_type_name : String
  raw_data : String
  device_sn : String
deriving DecidableEq, Repr

/-- Column sets declared `UniqueConstraint` on `attendance_logs` in
`models.py`: there are none. -/
def attendanceLogUniqueConstraints : List (List String) := []

/-- One derived check-in/check-out interval (`attendance_sessions` row,
minus `id` and `created_at`). -/
structure AttendanceSession where
  pin : String
  check_in : PyDateTime
  check_out : Option PyDateTime
  status : String
deriving DecidableEq, Repr

/-- The durable Event Store: the `attendance_logs` and
`attendance_sessions` tables, rows in insertion order. -/
structure Store where
  logs : List AttendanceLog
  sessions : List AttendanceSession
deriving DecidableEq, Repr

/-- The empty database. -/
def emptyStore : Store := ⟨[], []⟩

/-! ## Attendance Ingestor and Session Pairing Engine
(`iclock_cdata`, POST with `table=ATTLOG`, `biometric.py` lines 179-282)

The SQLAlchemy session has `autoflush=False`, so each `db.query` inside
the loop sees only the committed snapshot; `db.add` accumulates pending
inserts, and closing an open session mutates the already-loaded object.
`BatchState` keeps the committed `snapshot` (what queries filter on),
`curSessions` (the current values of the snapshot's session objects,
same length and order), and the pending inserts `newLogs` /
`newSessions`; `db.commit()` makes the pending rows and mutations
durable. -/

/-- `VERIFY_TYPE_MAP.get(verify_type, "unknown")`. -/
def verifyTypeName (v : Int) : String :=
  if v = 0 then "fingerprint"
  else if v = 1 then "password"
  else if v = 2 then "rfid_card"
  else if v = 3 then "face"
  else if v = 4 then "palm"
  else if v = 255 then "unknown"
  else "unknown"

/-- Outcome of the per-line parse pipeline: blank lines are skipped
silently, any parse failure (fewer than four tab-separated fields, bad
`int`, bad datetime) is counted as an error, and a fully parsed line
yields pin, timestamp, status and verify-type. -/
inductive LineParse where
  | blank
  | malformed
  | wellformed (pin : String) (ts : PyDateTime) (status : Int) (verify : Int)
deriving DecidableEq, Repr

/-- The parse pipeline of one ATTLOG line (`biometric.py` 184-207):
skip blank lines; split on tabs; require at least four fields;
`pin = parts[0].strip()`; `int(parts[2].strip())`,
`int(parts[3].strip())`; `parse_iclock_datetime(parts[1].strip())`. -/
def parseAttlogLine (line : List Char) : LineParse :=
  if (pyStrip line).isEmpty then .blank
  else
    let parts := pySplitOnChar '\t' line
    if parts.length < 4 then .malformed
    else
      let pin := String.mk (pyStrip (parts.getD 0 []))
      let dt_str := pyStrip (parts.getD 1 [])
      match pyParseInt (parts.getD 2 []) with
      | none => .malformed
      | some status =>
        match pyParseInt (parts.getD 3 []) with
        | none => .malformed
        | some verify =>
          match parse_iclock_datetime dt_str with
          | none => .malformed
          | some ts => .wellformed pin ts status verify

/-- Existence query of the dedup check: a committed row with the same
`(pin, timestamp)` pair. -/
def existsLog (st : Store) (pin : String) (ts : PyDateTime) : Prop :=
  ∃ l ∈ st.logs, l.pin = pin ∧ l.timestamp = ts

instance (st : Store) (pin : String) (ts : PyDateTime) :
    Decidable (existsLog st pin ts) :=
  List.decidableBEx _ st.logs

/-- Open-session candidates of
`db.query(AttendanceSession).filter(pin == pin, check_out.is_(None))`,
with their row positions starting at `i`. -/
def openCandsFrom (pin : String) (i : Nat) :
    List AttendanceSession → List (Nat × AttendanceSession)
  | [] => []
  | s :: rest =>
      if s.pin = pin ∧ s.check_out = none then
        (i, s) :: openCandsFrom pin (i + 1) rest
      else openCandsFrom pin (i + 1) rest

/-- `ORDER BY check_in DESC` comparison on naive datetimes
(lexicographic on the six fields, which is how `datetime` compares). -/
def dtLt (a b : PyDateTime) : Prop :=
  a.year < b.year ∨ (a.year = b.year ∧
    (a.month < b.month ∨ (a.month = b.month ∧
      (a.day < b.day ∨ (a.day = b.day ∧
        (a.hour < b.hour ∨ (a.hour = b.hour ∧
          (a.minute < b.minute ∨
            (a.minute = b.minute ∧ a.second < b.second)))))))))

instance (a b : PyDateTime) : Decidable (dtLt a b) := by
  unfold dtLt; infer_instance

/-- `.first()` after `ORDER BY check_in DESC`: the candidate with the
greatest `check_in`.  The relative order of rows with equal `check_in`
is unspecified by the database; this model keeps the earliest such row. -/
def pickLatest :
    List (Nat × AttendanceSession) → Option (Nat × AttendanceSession)
  | [] => none
  | c :: rest =>
      match pickLatest rest with
      | none => some c
      | some best =>
          if dtLt best.2.check_in c.2.check_in then some c else some best

/-- Row index of the open session the pairing engine will close, if any. -/
def findOpenIdx (pin : String) (sessions : List AttendanceSession) :
    Option Nat :=
  (pickLatest (openCandsFrom pin 0 sessions)).map Prod.fst

/-- `open_session.check_out = timestamp; open_session.status = "closed"`. -/
def closeSession (s : AttendanceSession) (ts : PyDateTime) :
    AttendanceSession :=
  { s with check_out := some ts, status := "closed" }

/-- Close the session object at row `i` (a mutation of the loaded
object; out-of-range index leaves the list unchanged and never occurs). -/
def closeAt (l : List AttendanceSession) (i : Nat) (ts : PyDateTime) :
    List AttendanceSession :=
  match l.get? i with
  | none => l
  | some s => l.set i (closeSession s ts)

/-- In-flight state of one ATTLOG batch before `db.commit()`. -/
structure BatchState where
  snapshot : Store
  curSessions : List AttendanceSession
  newLogs : List AttendanceLog
  newSessions : List AttendanceSession
  stored_count : Nat
  error_count : Nat
deriving Repr

/-- Batch state at the top of the loop: nothing pending, current
objects equal the committed rows. -/
def initBatch (st : Store) : BatchState :=
  ⟨st, st.sessions, [], [], 0, 0⟩

/-- One iteration of the ATTLOG loop (`biometric.py` 184-269): blank
lines skipped, parse failures counted, duplicate `(pin, timestamp)`
pairs skipped, otherwise the event row is added and handed to the
pairing engine (close the open session found in the committed snapshot,
else add a new open session). -/
def processLine (device_sn : String) (bs : BatchState) (line : List Char) :
    BatchState :=
  match parseAttlogLine line with
  | .blank => bs
  | .malformed => { bs with error_count := bs.error_count + 1 }
  | .wellformed pin ts status verify =>
      if existsLog bs.snapshot pin ts then bs
      else
        let log : AttendanceLog :=
          ⟨pin, ts, status, verify, verifyTypeName verify,
            String.mk line, device_sn⟩
        let bs := { bs with newLogs := bs.newLogs ++ [log] }
        match findOpenIdx pin bs.snapshot.sessions with
        | some i =>
            { bs with curSessions := closeAt bs.curSessions i ts,
                      stored_count := bs.stored_count + 1 }
        | none =>
            { bs with newSessions := bs.newSessions ++ [⟨pin, ts, none, "open"⟩],
                      stored_count := bs.stored_count + 1 }

/-- The ATTLOG loop over the lines of the batch. -/
def runLines (device_sn : String) (bs : BatchState)
    (lines : List (List Char)) : BatchState :=
  lines.foldl (processLine device_sn) bs

/-- Process the stripped body text: `lines = text.splitlines()` then the
loop. -/
def processAttlogBody (device_sn : String) (text : List Char) (st : Store) :
    BatchState :=
  runLines device_sn (initBatch st) (pySplitlines text)

/-- `db.commit()`: pending inserts and mutations become durable. -/
def commitBatch (bs : BatchState) : Store :=
  ⟨bs.snapshot.logs ++ bs.newLogs, bs.curSessions ++ bs.newSessions⟩

/-- Effect of one ATTLOG upload on the Event Store: the body is
stripped, split into lines and processed; a successful commit applies
the batch, a failed commit rolls the whole batch back
(`db.rollback()`, store unchanged). -/
def attlogStore (device_sn : String) (body : List Char) (commitOk : Bool)
    (st : Store) : Store :=
  if commitOk then commitBatch (processAttlogBody device_sn (pyStrip body) st)
  else st

/-! ## Command queue, acknowledgement correlation, dispatcher state
(`biometric.py`: module globals 32-44, `_extract_push_ack_fields`,
`_next_cmd_id`, `iclock_getrequest`, `iclock_devicecmd`,
`admin_clear_attlog`) -/

/-- Insertion-ordered Python `dict` lookup. -/
def pyDictGet {α : Type} (l : List (String × α)) (k : String) : Option α :=
  (l.find? (fun p => p.1 = k)).map Prod.snd

/-- Python `dict` assignment: update the key in place, or append a new
key at the end (dicts preserve insertion order). -/
def pyDictSet {α : Type} (l : List (String × α)) (k : String) (v : α) :
    List (String × α) :=
  match l with
  | [] => [(k, v)]
  | p :: rest => if p.1 = k then (k, v) :: rest else p :: pyDictSet rest k v

/-- Python `dict.pop(k, default)`: remove the key if present. -/
def pyDictPop {α : Type} (l : List (String × α)) (k : String) :
    List (String × α) :=
  l.filter (fun p => ¬ p.1 = k)

/-- ASCII hex digit test (`string.hexdigits`). -/
def isHexDigitChar (c : Char) : Bool :=
  c.isDigit || ('a' ≤ c && c ≤ 'f') || ('A' ≤ c && c ≤ 'F')

/-- Hex digit value. -/
def hexVal (c : Char) : Nat :=
  if c.isDigit then c.toNat - 48
  else if 'a' ≤ c ∧ c ≤ 'f' then c.toNat - 87
  else c.toNat - 55

/-- URL percent-unquoting of `parse_qs` (`unquote_plus`): `+` becomes a
space, `%XX` with two hex digits becomes the character of that byte.
Percent-encoded bytes ≥ 0x80 (pieces of multi-byte UTF-8 sequences)
decode through `errors="replace"` and are represented here by U+FFFD;
they never occur in the protocol fields. -/
def pyUnquotePlus : List Char → List Char
  | [] => []
  | '+' :: rest => ' ' :: pyUnquotePlus rest
  | '%' :: h1 :: h2 :: rest =>
      if isHexDigitChar h1 && isHexDigitChar h2 then
        let b := 16 * hexVal h1 + hexVal h2
        (if b < 0x80 then Char.ofNat b else '\uFFFD') :: pyUnquotePlus rest
      else '%' :: pyUnquotePlus (h1 :: h2 :: rest)
  | c :: rest => c :: pyUnquotePlus rest

/-- Split a query field at its first `=`, if any. -/
def splitFirstEq : List Char → Option (List Char × List Char)
  | [] => none
  | '=' :: rest => some ([], rest)
  | c :: rest =>
      match splitFirstEq rest with
      | some (n, v) => some (c :: n, v)
      | none => none

/-- `parse_qs(text, keep_blank_values=True)` as the ordered list of
(name, value) pairs: split on `&`, skip empty fields, split each field
at its first `=` (a field without `=` keeps a blank value), unquote
names and values. -/
def qsPairs (text : List Char) : List (String × String) :=
  (pySplitOnChar '&' text).filterMap fun field =>
    if field.isEmpty then none
    else
      match splitFirstEq field with
      | some (n, v) =>
          some (String.mk (pyUnquotePlus n), String.mk (pyUnquotePlus v))
      | none => some (String.mk (pyUnquotePlus field), "")

/-- The four form fields returned by `_extract_push_ack_fields`
(first occurrence of each, blank default). -/
structure AckFields where
  id : String
  sn : String
  ret : String
  cmd : String
deriving DecidableEq, Repr

/-- First value for a query-string key, defaulting to the blank string
(`parsed_qs.get(key, [""])[0]`). -/
def qsFirst (ps : List (String × String)) (k : String) : String :=
  ((ps.find? (fun p => p.1 = k)).map Prod.snd).getD ""

/-- `_extract_push_ack_fields` (`biometric.py` 81-91): `None` unless
both `ID` and `Return` appear. -/
def extractPushAckFields (text : List Char) : Option AckFields :=
  let ps := qsPairs text
  if (ps.any fun p => p.1 = "ID") && (ps.any fun p => p.1 = "Return") then
    some ⟨qsFirst ps "ID", qsFirst ps "SN", qsFirst ps "Return", qsFirst ps "CMD"⟩
  else none

/-- `SERVER_PUSH_PROTOCOL_VERSION`. -/
def SERVER_PUSH_PROTOCOL_VERSION : String := "2.3.2"

/-- `SERVER_TIMEZONE`. -/
def SERVER_TIMEZONE : String := "2"

/-- A `LAST_HANDSHAKES` ring-buffer entry (timestamp not modelled). -/
structure HandshakeEntry where
  sn : String
  device_pushver : String
  negotiated : String
deriving DecidableEq, Repr

/-- A `LAST_ICLOCK` ring-buffer entry (timestamp and client address not
modelled; of the query dict only `SN` and `table` are kept). -/
structure IclockEntry where
  method : String
  querySn : Option String
  queryTable : Option String
  body : String
deriving DecidableEq, Repr

/-- A `LAST_PUSH_ACKS` ring-buffer entry (timestamp not modelled). -/
structure AckEntry where
  sn : String
  id : String
  ret : String
  cmd : String
deriving DecidableEq, Repr

/-- Append to a debug buffer, evicting the oldest entry beyond 50
(`LIST.append(e); if len(LIST) > 50: LIST.pop(0)`). -/
def pushCap {α : Type} (l : List α) (x : α) : List α :=
  let l := l ++ [x]
  if l.length > 50 then l.drop 1 else l

/-- The whole mutable server state: the Event Store plus the module
globals of `biometric.py` (`PENDING_CLEAR_BY_SN`, `WAITING_ACK_BY_SN`,
`NEXT_CMD_ID`, and the four ring buffers). -/
structure ServerState where
  store : Store
  pending : List (String × Bool)
  waiting : List (String × Int)
  nextCmdId : Int
  lastHandshakes : List HandshakeEntry
  lastIclock : List IclockEntry
  lastPolls : List String
  lastAcks : List AckEntry
deriving Repr

/-- Module-load state: empty queue maps, counter at 9001, empty
buffers, over an arbitrary pre-existing database. -/
def initState (st : Store) : ServerState :=
  ⟨st, [], [], 9001, [], [], [], []⟩

/-- An HTTP plain-text response: body and status code. -/
structure Resp where
  body : String
  status : Nat
deriving DecidableEq, Repr

/-- The `"OK\n"` acknowledgement token. -/
def okResp : Resp := ⟨"OK\n", 200⟩

/-- The handshake block of `iclock_cdata` (lines 126-135), in source
order. -/
def handshakeLines (device_sn : String) : List String :=
  ["GET OPTION FROM: " ++ device_sn,
   "ErrorDelay=60",
   "Delay=10",
   "TransInterval=1",
   "TransFlag=TransData AttLog",
   "TimeZone=" ++ SERVER_TIMEZONE,
   "Realtime=1",
   "PushProtVer=" ++ SERVER_PUSH_PROTOCOL_VERSION]

/-- `"\n".join(handshake_lines) + "\n"`. -/
def handshakeBody (device_sn : String) : String :=
  String.intercalate "\n" (handshakeLines device_sn) ++ "\n"

/-- GET `/iclock/cdata` (`biometric.py` 109-138): a capability-discovery
poll (`options=all` or a `pushver` present) answers the handshake block
and records it in `LAST_HANDSHAKES`; any other GET answers `OK`. -/
def iclock_cdata_get (snParam optionsParam pushverParam : Option String)
    (s : ServerState) : Resp × ServerState :=
  let device_sn := snParam.getD "unknown"
  let options := optionsParam.getD ""
  let device_pushver := pushverParam.getD ""
  if options = "all" ∨ device_pushver ≠ "" then
    let entry : HandshakeEntry :=
      ⟨device_sn, (if device_pushver = "" then "(missing)" else device_pushver),
        SERVER_PUSH_PROTOCOL_VERSION⟩
    (⟨handshakeBody device_sn, 200⟩,
      { s with lastHandshakes := pushCap s.lastHandshakes entry })
  else (okResp, s)

/-- The shared acknowledgement-correlation block (`biometric.py`
157-176 and 541-559): parse the ack id (`-1` on `ValueError`), clear
the waiting entry only when it matches, and record the ack for audit. -/
def applyAck (fallbackSn : String) (ack : AckFields) (s : ServerState) :
    ServerState :=
  let ack_sn := if ack.sn ≠ "" then ack.sn else fallbackSn
  let ack_id : Int := (pyParseInt ack.id.toList).getD (-1)
  if pyDictGet s.waiting ack_sn = some ack_id then
    { s with waiting := pyDictPop s.waiting ack_sn,
             lastAcks := pushCap s.lastAcks ⟨ack_sn, ack.id, ack.ret, ack.cmd⟩ }
  else
    { s with lastAcks := pushCap s.lastAcks ⟨ack_sn, ack.id, ack.ret, ack.cmd⟩ }

/-- POST `/iclock/cdata` (`biometric.py` 140-282): record the raw hit,
run the acknowledgement block if the body parses as ack fields, then
for `table=ATTLOG` parse and store the batch — `OK` on a successful
commit regardless of per-line errors, `ERROR` 500 with a rollback on a
commit failure; every other POST answers `OK`.  `commitOk` is the
environment's verdict on `db.commit()`. -/
def iclock_cdata_post (snParam tableParam : Option String)
    (body : List Char) (commitOk : Bool) (s : ServerState) :
    Resp × ServerState :=
  let device_sn := snParam.getD "unknown"
  let table_name := tableParam.getD "unknown"
  let text := pyStrip body
  let s := { s with
    lastIclock := pushCap s.lastIclock ⟨"POST", snParam, tableParam, String.mk body⟩ }
  let s :=
    match extractPushAckFields text with
    | some ack => applyAck device_sn ack s
    | none => s
  if table_name = "ATTLOG" then
    if commitOk then
      (okResp,
        { s with store := commitBatch (processAttlogBody device_sn text s.store) })
    else (⟨"ERROR\n", 500⟩, s)
  else (okResp, s)

/-- GET `/iclock/getrequest` (`biometric.py` 511-532): record the poll;
an outstanding waiting-ack entry answers `OK` without re-dispatching; a
pending flag is consumed (`dict.pop`) and, when set, a fresh command id
is minted, moved into the waiting-ack map, and the command is framed as
`C:<id>:CLEAR LOG`; otherwise `OK`. -/
def iclock_getrequest (snParam : Option String) (s : ServerState) :
    Resp × ServerState :=
  let sn := snParam.getD ""
  let s := { s with lastPolls := pushCap s.lastPolls sn }
  if (pyDictGet s.waiting sn).isSome then (okResp, s)
  else if sn = "" then (okResp, s)
  else
    let flag := (pyDictGet s.pending sn).getD false
    let s := { s with pending := pyDictPop s.pending sn }
    if flag then
      let cmd_id := s.nextCmdId
      let s := { s with nextCmdId := s.nextCmdId + 1,
                        waiting := pyDictSet s.waiting sn cmd_id }
      (⟨"C:" ++ toString cmd_id ++ ":CLEAR LOG\n", 200⟩, s)
    else (okResp, s)

/-- POST `/iclock/devicecmd` (`biometric.py` 535-571): run the
acknowledgement block if the body parses as ack fields (serial falls
back to the `SN` query parameter, default blank), record the hit,
always answer `OK`. -/
def iclock_devicecmd (snParam : Option String) (body : List Char)
    (s : ServerState) : Resp × ServerState :=
  let text := pyStrip body
  let s :=
    match extractPushAckFields text with
    | some ack => applyAck (snParam.getD "") ack s
    | none => s
  let s := { s with
    lastIclock := pushCap s.lastIclock ⟨"POST", snParam, none, String.mk text⟩ }
  (okResp, s)

/-- POST `/admin/device/{sn}/clear-attlog` (`biometric.py` 574-578):
set the pending flag (the JSON confirmation response is not modelled). -/
def admin_clear_attlog (sn : String) (s : ServerState) : ServerState :=
  { s with pending := pyDictSet s.pending sn true }

/-- One inbound call of the subsystem.  The read-only admin endpoints
(`/biometric/debug`, `/biometric/logs`) only query and are omitted. -/
inductive Op where
  | cdataGet (sn options pushver : Option String)
  | cdataPost (sn table : Option String) (body : List Char) (commitOk : Bool)
  | getrequest (sn : Option String)
  | devicecmd (sn : Option String) (body : List Char)
  | adminClear (sn : String)

/-- State transition of one call. -/
def applyOp (op : Op) (s : ServerState) : ServerState :=
  match op with
  | .cdataGet sn options pushver => (iclock_cdata_get sn options pushver s).2
  | .cdataPost sn table body commitOk =>
      (iclock_cdata_post sn table body commitOk s).2
  | .getrequest sn => (iclock_getrequest sn s).2
  | .devicecmd sn body => (iclock_devicecmd sn body s).2
  | .adminClear sn => admin_clear_attlog sn s

/-- States the server can actually be in: module-load state over any
pre-existing database, closed under inbound calls. -/
inductive Reachable : ServerState → Prop where
  | init (st : Store) : Reachable (initState st)
  | step (op : Op) {s : ServerState} :
      Reachable s → Reachable (applyOp op s)

/-! ## Derived predicates used by the specification claims -/

/-- The dedup key of a stored event. -/
def logKey (l : AttendanceLog) : String × PyDateTime := (l.pin, l.timestamp)

/-- Spec §8 "Uniqueness": no two stored events share `(badge id,
timestamp)`. -/
def UniqueKeys (st : Store) : Prop := (st.logs.map logKey).Nodup

instance (st : Store) : Decidable (UniqueKeys st) :=
  List.nodupDecidable _

/-- Number of sessions for a badge that are open (`check_out` null). -/
def openCount (p : String) (l : List AttendanceSession) : Nat :=
  l.countP (fun s => decide (s.pin = p ∧ s.check_out = none))

/-- Spec §3 invariant: at most one open session per badge id. -/
def OpenInv (st : Store) : Prop := ∀ p, openCount p st.sessions ≤ 1

/-- Number of pending new event rows for a badge in a batch. -/
def newLogsFor (p : String) (l : List AttendanceLog) : Nat :=
  l.countP (fun x => decide (x.pin = p))

/-- Toggle pairing of a timestamp sequence for one badge: the first,
third, … event opens a session, the second, fourth, … closes the one
just opened. -/
def pairUp (p : String) : List PyDateTime → List AttendanceSession
  | [] => []
  | [t] => [⟨p, t, none, "open"⟩]
  | t1 :: t2 :: rest => ⟨p, t1, some t2, "closed"⟩ :: pairUp p rest

/-- Fold a sequence of single-event uploads (one POST per event, each
commit succeeding) over the store. -/
def uploadEach (device_sn : String) (bodies : List (List Char)) (st : Store) :
    Store :=
  bodies.foldl (fun acc b => attlogStore device_sn b true acc) st

/-- Well-formedness of the command-queue state: the counter never falls
below its initial value 9001 and every outstanding dispatched id was
minted by the counter. -/
def QueueIdsInv (s : ServerState) : Prop :=
  9001 ≤ s.nextCmdId ∧ ∀ p ∈ s.waiting, 9001 ≤ p.2 ∧ p.2 < s.nextCmdId

/-- The key of a well-formed line is present after the line has been
processed: either it was a committed duplicate or it is now pending. -/
def keyStored (bs : BatchState) (p : String) (t : PyDateTime) : Prop :=
  existsLog bs.snapshot p t ∨ ∃ l ∈ bs.newLogs, l.pin = p ∧ l.timestamp = t

/-- The components of the batch state that `db.commit()` writes. -/
def commitView (bs : BatchState) :
    Store × List AttendanceSession × List AttendanceLog ×
      List AttendanceSession :=
  (bs.snapshot, bs.curSessions, bs.newLogs, bs.newSessions)

/-- The event row created for one stored line. -/
def mkLog (sn : String) (line : List Char) (p : String) (t : PyDateTime)
    (status verify : Int) : AttendanceLog :=
  ⟨p, t, status, verify, verifyTypeName verify, String.mk line, sn⟩

/-- Three single-event upload bodies for badge 7 at 08:00, 12:00 and
17:00, with their parsed timestamps (used as a concrete witness). -/
def c3WitnessEvents : List (List Char × PyDateTime) :=
  [("7\t2024-01-10 08:00:00\t0\t1\n".toList, ⟨2024, 1, 10, 8, 0, 0⟩),
   ("7\t2024-01-10 12:00:00\t1\t1\n".toList, ⟨2024, 1, 10, 12, 0, 0⟩),
   ("7\t2024-01-10 17:00:00\t0\t1\n".toList, ⟨2024, 1, 10, 17, 0, 0⟩)]

/-- Invariant carried through one ATTLOG batch: every current session
object is its committed row or that row closed by a stored line of the
same badge; every pending new session belongs to a badge with a stored
line; and every badge has at most one open session in the current view
(current objects plus pending inserts). -/
def BatchInv (bs : BatchState) : Prop :=
  (∀ i, bs.curSessions.get? i = bs.snapshot.sessions.get? i ∨
    (∃ s t, bs.snapshot.sessions.get? i = some s ∧
      bs.curSessions.get? i = some (closeSession s t) ∧
      1 ≤ newLogsFor s.pin bs.newLogs)) ∧
  (∀ ns ∈ bs.newSessions, 1 ≤ newLogsFor ns.pin bs.newLogs) ∧
  (∀ q, openCount q (bs.curSessions ++ bs.newSessions) ≤ 1)

/-! ## Helper lemmas: Python dict operations -/

theorem pyDictGet_nil {α : Type} (k : String) :
    pyDictGet ([] : List (String × α)) k = none := rfl

theorem pyDictGet_cons {α : Type} (q : String × α) (l : List (String × α))
    (k : String) :
    pyDictGet (q :: l) k = if q.1 = k then some q.2 else pyDictGet l k := by
  by_cases h : q.1 = k <;> simp [pyDictGet, List.find?, h]

theorem pyDictPop_nil {α : Type} (k : String) :
    pyDictPop ([] : List (String × α)) k = [] := rfl

theorem pyDictPop_cons {α : Type} (q : String × α) (l : List (String × α))
    (k : String) :
    pyDictPop (q :: l) k =
      if q.1 = k then pyDictPop l k else q :: pyDictPop l k := by
  by_cases h : q.1 = k <;> simp [pyDictPop, h]

theorem pyDictGet_set_self {α : Type} (l : List (String × α)) (k : String)
    (v : α) : pyDictGet (pyDictSet l k v) k = some v := by
  induction l with
  | nil => simp [pyDictSet, pyDictGet_cons]
  | cons p rest ih =>
      by_cases h : p.1 = k
      · simp [pyDictSet, h, pyDictGet_cons]
      · simpa [pyDictSet, h, pyDictGet_cons] using ih

theorem pyDictGet_set_ne {α : Type} (l : List (String × α)) {k k' : String}
    (v : α) (h : k' ≠ k) :
    pyDictGet (pyDictSet l k v) k' = pyDictGet l k' := by
  induction l with
  | nil => simp [pyDictSet, pyDictGet_cons, pyDictGet_nil, Ne.symm h]
  | cons p rest ih =>
      by_cases hp : p.1 = k
      · simp [pyDictSet, hp, pyDictGet_cons, Ne.symm h]
      · simp only [pyDictSet, hp, if_neg, not_false_iff, pyDictGet_cons]
        by_cases hp' : p.1 = k'
        · simp [hp']
        · simpa [hp'] using ih

theorem pyDictGet_pop_self {α : Type} (l : List (String × α)) (k : String) :
    pyDictGet (pyDictPop l k) k = none := by
  induction l with
  | nil => simp [pyDictPop_nil, pyDictGet_nil]
  | cons p rest ih =>
      by_cases h : p.1 = k
      · simpa [pyDictPop_cons, h] using ih
      · simpa [pyDictPop_cons, pyDictGet_cons, h] using ih

theorem pyDictGet_pop_ne {α : Type} (l : List (String × α)) {k k' : String}
    (h : k' ≠ k) : pyDictGet (pyDictPop l k) k' = pyDictGet l k' := by
  induction l with
  | nil => simp [pyDictPop_nil]
  | cons p rest ih =>
      by_cases hp : p.1 = k
      · rw [pyDictPop_cons, if_pos hp, ih, pyDictGet_cons,
          if_neg (fun e : p.1 = k' => h (hp ▸ e ▸ rfl))]
      · rw [pyDictPop_cons, if_neg hp, pyDictGet_cons, pyDictGet_cons, ih]

theorem mem_pyDictSet {α : Type} {l : List (String × α)} {k : String}
    {v : α} {p : String × α} (h : p ∈ pyDictSet l k v) :
    p ∈ l ∨ p = (k, v) := by
  induction l with
  | nil => simpa [pyDictSet] using h
  | cons q rest ih =>
      by_cases hq : q.1 = k
      · simp only [pyDictSet, hq, if_pos] at h
        rcases List.mem_cons.mp h with h | h
        · exact Or.inr h
        · exact Or.inl (List.mem_cons_of_mem _ h)
      · simp only [pyDictSet, hq, if_neg, not_false_iff] at h
        rcases List.mem_cons.mp h with h | h
        · exact Or.inl (h ▸ List.mem_cons_self _ _)
        · rcases ih h with h | h
          · exact Or.inl (List.mem_cons_of_mem _ h)
          · exact Or.inr h

theorem mem_pyDictPop {α : Type} {l : List (String × α)} {k : String}
    {p : String × α} (h : p ∈ pyDictPop l k) : p ∈ l :=
  (List.mem_filter.mp h).1

/-! ## Claim C9: handshake response content -/

/-- C9: every capability-discovery poll (`options=all` or a `pushver`
parameter present) is answered by the fixed multi-line block — identity
echo, `ErrorDelay`, `Delay`, `TransInterval`, pushed-table set,
timezone, realtime flag, and `PushProtVer` — in that order, and the
`PushProtVer` value is the server's own version `2.3.2` for every
device-advertised `pushver` (never negotiated down). -/
theorem handshake_response_content
    (snParam optionsParam pushverParam : Option String) (s : ServerState)
    (h : optionsParam.getD "" = "all" ∨ pushverParam.getD "" ≠ "") :
    (iclock_cdata_get snParam optionsParam pushverParam s).1 =
      ⟨String.intercalate "\n"
        ["GET OPTION FROM: " ++ snParam.getD "unknown",
         "ErrorDelay=60",
         "Delay=10",
         "TransInterval=1",
         "TransFlag=TransData AttLog",
         "TimeZone=2",
         "Realtime=1",
         "PushProtVer=2.3.2"] ++ "\n", 200⟩ := by
  unfold iclock_cdata_get
  rw [if_pos h]
  rfl

/-- Witness for C9 at the spec's example: serial `AAML1`, device
`pushver=2.3.0`. -/
theorem handshake_response_content_witness :
    (iclock_cdata_get (some "AAML1") none (some "2.3.0")
        (initState emptyStore)).1 =
      ⟨String.intercalate "\n"
        ["GET OPTION FROM: " ++ (some "AAML1").getD "unknown",
         "ErrorDelay=60",
         "Delay=10",
         "TransInterval=1",
         "TransFlag=TransData AttLog",
         "TimeZone=2",
         "Realtime=1",
         "PushProtVer=2.3.2"] ++ "\n", 200⟩ :=
  handshake_response_content (some "AAML1") none (some "2.3.0")
    (initState emptyStore) (Or.inr (by decide))

/-! ## Claim C8: handshake purity and idempotence -/

/-- C8: answering a capability-discovery poll mutates no stored state —
the Event Store, the queue maps, the command-id counter and the other
buffers are unchanged (only the observational handshake ring buffer
records the poll) — the response is a pure function of the inbound
serial number, and a repeated identical handshake poll returns the
identical response. -/
theorem handshake_purity
    (snParam optionsParam pushverParam : Option String) (s : ServerState)
    (h : optionsParam.getD "" = "all" ∨ pushverParam.getD "" ≠ "") :
    (iclock_cdata_get snParam optionsParam pushverParam s).1 =
      ⟨handshakeBody (snParam.getD "unknown"), 200⟩ ∧
    (iclock_cdata_get snParam optionsParam pushverParam s).2.store = s.store ∧
    (iclock_cdata_get snParam optionsParam pushverParam s).2.pending = s.pending ∧
    (iclock_cdata_get snParam optionsParam pushverParam s).2.waiting = s.waiting ∧
    (iclock_cdata_get snParam optionsParam pushverParam s).2.nextCmdId = s.nextCmdId ∧
    (iclock_cdata_get snParam optionsParam pushverParam s).2.lastIclock = s.lastIclock ∧
    (iclock_cdata_get snParam optionsParam pushverParam s).2.lastPolls = s.lastPolls ∧
    (iclock_cdata_get snParam optionsParam pushverParam s).2.lastAcks = s.lastAcks ∧
    (iclock_cdata_get snParam optionsParam pushverParam
        ((iclock_cdata_get snParam optionsParam pushverParam s).2)).1 =
      (iclock_cdata_get snParam optionsParam pushverParam s).1 := by
  have e : iclock_cdata_get snParam optionsParam pushverParam s =
      (⟨handshakeBody (snParam.getD "unknown"), 200⟩,
        { s with lastHandshakes := pushCap s.lastHandshakes {
            sn := snParam.getD "unknown"
            device_pushver :=
              if pushverParam.getD "" = "" then "(missing)"
              else pushverParam.getD ""
            negotiated := SERVER_PUSH_PROTOCOL_VERSION } }) := by
    unfold iclock_cdata_get
    rw [if_pos h]
  have resp : ∀ t : ServerState,
      (iclock_cdata_get snParam optionsParam pushverParam t).1 =
        ⟨handshakeBody (snParam.getD "unknown"), 200⟩ := by
    intro t
    unfold iclock_cdata_get
    rw [if_pos h]
  exact ⟨resp s, by rw [e], by rw [e], by rw [e], by rw [e], by rw [e],
    by rw [e], by rw [e], by rw [resp, resp]⟩

/-- Witness for C8. -/
theorem handshake_purity_witness :
    (iclock_cdata_get (some "AAML1") (some "all") none
        (initState emptyStore)).1 =
      ⟨handshakeBody ((some "AAML1").getD "unknown"), 200⟩ ∧
    (iclock_cdata_get (some "AAML1") (some "all") none
        (initState emptyStore)).2.store = (initState emptyStore).store ∧
    (iclock_cdata_get (some "AAML1") (some "all") none
        (initState emptyStore)).2.pending = (initState emptyStore).pending ∧
    (iclock_cdata_get (some "AAML1") (some "all") none
        (initState emptyStore)).2.waiting = (initState emptyStore).waiting ∧
    (iclock_cdata_get (some "AAML1") (some "all") none
        (initState emptyStore)).2.nextCmdId = (initState emptyStore).nextCmdId ∧
    (iclock_cdata_get (some "AAML1") (some "all") none
        (initState emptyStore)).2.lastIclock = (initState emptyStore).lastIclock ∧
    (iclock_cdata_get (some "AAML1") (some "all") none
        (initState emptyStore)).2.lastPolls = (initState emptyStore).lastPolls ∧
    (iclock_cdata_get (some "AAML1") (some "all") none
        (initState emptyStore)).2.lastAcks = (initState emptyStore).lastAcks ∧
    (iclock_cdata_get (some "AAML1") (some "all") none
        ((iclock_cdata_get (some "AAML1") (some "all") none
            (initState emptyStore)).2)).1 =
      (iclock_cdata_get (some "AAML1") (some "all") none
          (initState emptyStore)).1 :=
  handshake_purity (some "AAML1") (some "all") none (initState emptyStore)
    (Or.inl (by decide))

/-! ## Claim C7: ATTLOG response contract and batch atomicity -/

/-- C7: a POST with `table=ATTLOG` answers `OK` exactly when the commit
succeeds — regardless of how many individual lines were malformed — and
the store then holds the committed batch; a commit failure is the one
error response (`ERROR`, status 500) and rolls the whole batch back, so
the store keeps no event or session from the batch. -/
theorem attlog_response_contract
    (snParam tableParam : Option String) (body : List Char)
    (commitOk : Bool) (s : ServerState)
    (htable : tableParam.getD "unknown" = "ATTLOG") :
    (commitOk = true →
      (iclock_cdata_post snParam tableParam body commitOk s).1 = okResp ∧
      (iclock_cdata_post snParam tableParam body commitOk s).2.store =
        commitBatch
          (processAttlogBody (snParam.getD "unknown") (pyStrip body)
            s.store)) ∧
    (commitOk = false →
      (iclock_cdata_post snParam tableParam body commitOk s).1 =
        ⟨"ERROR\n", 500⟩ ∧
      (iclock_cdata_post snParam tableParam body commitOk s).2.store =
        s.store) := by
  unfold iclock_cdata_post
  rw [htable]
  cases hA : extractPushAckFields (pyStrip body) with
  | none =>
      cases commitOk <;>
        simp_all
  | some ack =>
      have hstore : ∀ f t, (applyAck f ack t).store = t.store := by
        intro f t
        simp only [applyAck]
        split <;> split <;> rfl
      cases commitOk <;> simp_all

/-- Witness for C7: a batch with one well-formed and one malformed line
still answers `OK` on a successful commit, and is fully rolled back on
a failed one. -/
theorem attlog_response_contract_witness :
    ((true = true →
      (iclock_cdata_post (some "SN1") (some "ATTLOG")
          "7\t2024-01-10 08:00:00\t0\t1\ngarbage".toList true
          (initState emptyStore)).1 = okResp ∧
      (iclock_cdata_post (some "SN1") (some "ATTLOG")
          "7\t2024-01-10 08:00:00\t0\t1\ngarbage".toList true
          (initState emptyStore)).2.store =
        commitBatch
          (processAttlogBody ((some "SN1").getD "unknown")
            (pyStrip "7\t2024-01-10 08:00:00\t0\t1\ngarbage".toList)
            (initState emptyStore).store)) ∧
    (true = false →
      (iclock_cdata_post (some "SN1") (some "ATTLOG")
          "7\t2024-01-10 08:00:00\t0\t1\ngarbage".toList true
          (initState emptyStore)).1 = ⟨"ERROR\n", 500⟩ ∧
      (iclock_cdata_post (some "SN1") (some "ATTLOG")
          "7\t2024-01-10 08:00:00\t0\t1\ngarbage".toList true
          (initState emptyStore)).2.store = (initState emptyStore).store)) ∧
    ((false = true →
      (iclock_cdata_post (some "SN1") (some "ATTLOG")
          "7\t2024-01-10 08:00:00\t0\t1\ngarbage".toList false
          (initState emptyStore)).1 = okResp ∧
      (iclock_cdata_post (some "SN1") (some "ATTLOG")
          "7\t2024-01-10 08:00:00\t0\t1\ngarbage".toList false
          (initState emptyStore)).2.store =
        commitBatch
          (processAttlogBody ((some "SN1").getD "unknown")
            (pyStrip "7\t2024-01-10 08:00:00\t0\t1\ngarbage".toList)
            (initState emptyStore).store)) ∧
    (false = false →
      (iclock_cdata_post (some "SN1") (some "ATTLOG")
          "7\t2024-01-10 08:00:00\t0\t1\ngarbage".toList false
          (initState emptyStore)).1 = ⟨"ERROR\n", 500⟩ ∧
      (iclock_cdata_post (some "SN1") (some "ATTLOG")
          "7\t2024-01-10 08:00:00\t0\t1\ngarbage".toList false
          (initState emptyStore)).2.store = (initState emptyStore).store)) :=
  ⟨attlog_response_contract (some "SN1") (some "ATTLOG") _ true
      (initState emptyStore) (by decide),
    attlog_response_contract (some "SN1") (some "ATTLOG") _ false
      (initState emptyStore) (by decide)⟩

/-! ## Claim C5: command single-delivery -/

/-- C5: with a command pending and no outstanding waiting-ack entry for
a (nonempty) serial number, the first mailbox poll frames the command
as `C:<id>:CLEAR LOG`, moves the freshly minted id into the waiting-ack
map and clears the pending flag; and every poll for a serial that has
an outstanding waiting-ack entry answers exactly `OK` and changes
nothing but the observational poll buffer, so the command is dispatched
exactly once. -/
theorem command_single_delivery (sn : String) (s : ServerState)
    (hsn : sn ≠ "") (hw : pyDictGet s.waiting sn = none)
    (hp : pyDictGet s.pending sn = some true) :
    (iclock_getrequest (some sn) s).1 =
      ⟨"C:" ++ toString s.nextCmdId ++ ":CLEAR LOG\n", 200⟩ ∧
    pyDictGet (iclock_getrequest (some sn) s).2.waiting sn =
      some s.nextCmdId ∧
    pyDictGet (iclock_getrequest (some sn) s).2.pending sn = none ∧
    (iclock_getrequest (some sn) s).2.nextCmdId = s.nextCmdId + 1 ∧
    (∀ t : ServerState, (pyDictGet t.waiting sn).isSome →
      (iclock_getrequest (some sn) t).1 = okResp ∧
      (iclock_getrequest (some sn) t).2 =
        { t with lastPolls := pushCap t.lastPolls sn }) := by
  have hOK : ∀ t : ServerState, (pyDictGet t.waiting sn).isSome →
      (iclock_getrequest (some sn) t).1 = okResp ∧
      (iclock_getrequest (some sn) t).2 =
        { t with lastPolls := pushCap t.lastPolls sn } := by
    intro t ht
    unfold iclock_getrequest
    simp only [Option.getD_some]
    rw [if_pos]
    · exact ⟨rfl, rfl⟩
    · simpa using ht
  have e : iclock_getrequest (some sn) s =
      (⟨"C:" ++ toString s.nextCmdId ++ ":CLEAR LOG\n", 200⟩,
        { s with lastPolls := pushCap s.lastPolls sn,
                 pending := pyDictPop s.pending sn,
                 nextCmdId := s.nextCmdId + 1,
                 waiting := pyDictSet s.waiting sn s.nextCmdId }) := by
    unfold iclock_getrequest
    simp only [Option.getD_some]
    rw [if_neg (by simp [hw]), if_neg hsn, hp]
    simp
  refine ⟨by rw [e], ?_, ?_, by rw [e], hOK⟩
  · rw [e]
    exact pyDictGet_set_self _ _ _
  · rw [e]
    exact pyDictGet_pop_self _ _

/-- Witness for C5: enqueue for serial `A`, then poll. -/
theorem command_single_delivery_witness :
    (iclock_getrequest (some "A")
        (admin_clear_attlog "A" (initState emptyStore))).1 =
      ⟨"C:" ++ toString (admin_clear_attlog "A"
          (initState emptyStore)).nextCmdId ++ ":CLEAR LOG\n", 200⟩ ∧
    pyDictGet (iclock_getrequest (some "A")
        (admin_clear_attlog "A" (initState emptyStore))).2.waiting "A" =
      some (admin_clear_attlog "A" (initState emptyStore)).nextCmdId ∧
    pyDictGet (iclock_getrequest (some "A")
        (admin_clear_attlog "A" (initState emptyStore))).2.pending "A" =
      none ∧
    (iclock_getrequest (some "A")
        (admin_clear_attlog "A" (initState emptyStore))).2.nextCmdId =
      (admin_clear_attlog "A" (initState emptyStore)).nextCmdId + 1 ∧
    (∀ t : ServerState, (pyDictGet t.waiting "A").isSome →
      (iclock_getrequest (some "A") t).1 = okResp ∧
      (iclock_getrequest (some "A") t).2 =
        { t with lastPolls := pushCap t.lastPolls "A" }) :=
  command_single_delivery "A" (admin_clear_attlog "A" (initState emptyStore))
    (by decide) (by decide) (by decide)

/-! ## Claim C6: acknowledgement correlation -/

/-- C6: an acknowledgement submission clears the waiting-ack entry for
its serial number iff its parsed `ID` equals the outstanding dispatched
id for that serial (regardless of the `Return` code, which is only
recorded); a mismatched or unknown id leaves the waiting-ack map
unchanged; the pending flags are never touched; the response is always
`OK`. -/
theorem ack_correlation (snParam : Option String) (body : List Char)
    (s : ServerState) (ack : AckFields)
    (hA : extractPushAckFields (pyStrip body) = some ack) :
    (pyDictGet s.waiting
        (if ack.sn ≠ "" then ack.sn else snParam.getD "") =
        some ((pyParseInt ack.id.toList).getD (-1)) →
      (iclock_devicecmd snParam body s).2.waiting =
        pyDictPop s.waiting
          (if ack.sn ≠ "" then ack.sn else snParam.getD "")) ∧
    (pyDictGet s.waiting
        (if ack.sn ≠ "" then ack.sn else snParam.getD "") ≠
        some ((pyParseInt ack.id.toList).getD (-1)) →
      (iclock_devicecmd snParam body s).2.waiting = s.waiting) ∧
    (iclock_devicecmd snParam body s).2.pending = s.pending ∧
    (iclock_devicecmd snParam body s).2.nextCmdId = s.nextCmdId ∧
    (iclock_devicecmd snParam body s).1 = okResp := by
  simp only [iclock_devicecmd]
  rw [hA]
  simp only [applyAck]
  refine ⟨fun hc => ?_, fun hc => ?_, ?_, ?_, trivial⟩
  · rw [if_pos hc]
  · rw [if_neg hc]
  · split <;> split <;> rfl
  · split <;> split <;> rfl

/-- Witness for C6: serial `A` waiting on id 9001; an acknowledgement
body `ID=9001&Return=-1010&CMD=CLEAR+LOG&SN=A` (a failure return code)
exercises the theorem, and its clear/keep branches follow the id
match. -/
theorem ack_correlation_witness :
    (pyDictGet ({ initState emptyStore with
          waiting := [("A", 9001)] } : ServerState).waiting
        (if (AckFields.mk "9001" "A" "-1010" "CLEAR LOG").sn ≠ "" then
          (AckFields.mk "9001" "A" "-1010" "CLEAR LOG").sn
         else (some "A").getD "") =
        some ((pyParseInt
          (AckFields.mk "9001" "A" "-1010" "CLEAR LOG").id.toList).getD
            (-1)) →
      (iclock_devicecmd (some "A")
          "ID=9001&Return=-1010&CMD=CLEAR+LOG&SN=A".toList
          { initState emptyStore with waiting := [("A", 9001)] }).2.waiting =
        pyDictPop ({ initState emptyStore with
            waiting := [("A", 9001)] } : ServerState).waiting
          (if (AckFields.mk "9001" "A" "-1010" "CLEAR LOG").sn ≠ "" then
            (AckFields.mk "9001" "A" "-1010" "CLEAR LOG").sn
           else (some "A").getD "")) ∧
    (pyDictGet ({ initState emptyStore with
          waiting := [("A", 9001)] } : ServerState).waiting
        (if (AckFields.mk "9001" "A" "-1010" "CLEAR LOG").sn ≠ "" then
          (AckFields.mk "9001" "A" "-1010" "CLEAR LOG").sn
         else (some "A").getD "") ≠
        some ((pyParseInt
          (AckFields.mk "9001" "A" "-1010" "CLEAR LOG").id.toList).getD
            (-1)) →
      (iclock_devicecmd (some "A")
          "ID=9001&Return=-1010&CMD=CLEAR+LOG&SN=A".toList
          { initState emptyStore with waiting := [("A", 9001)] }).2.waiting =
        ({ initState emptyStore with
            waiting := [("A", 9001)] } : ServerState).waiting) ∧
    (iclock_devicecmd (some "A")
        "ID=9001&Return=-1010&CMD=CLEAR+LOG&SN=A".toList
        { initState emptyStore with waiting := [("A", 9001)] }).2.pending =
      ({ initState emptyStore with
          waiting := [("A", 9001)] } : ServerState).pending ∧
    (iclock_devicecmd (some "A")
        "ID=9001&Return=-1010&CMD=CLEAR+LOG&SN=A".toList
        { initState emptyStore with waiting := [("A", 9001)] }).2.nextCmdId =
      ({ initState emptyStore with
          waiting := [("A", 9001)] } : ServerState).nextCmdId ∧
    (iclock_devicecmd (some "A")
        "ID=9001&Return=-1010&CMD=CLEAR+LOG&SN=A".toList
        { initState emptyStore with waiting := [("A", 9001)] }).1 = okResp :=
  ack_correlation (some "A")
    "ID=9001&Return=-1010&CMD=CLEAR+LOG&SN=A".toList
    { initState emptyStore with waiting := [("A", 9001)] }
    (AckFields.mk "9001" "A" "-1010" "CLEAR LOG") (by decide)

/-! ## Claim C10: unparsable acknowledgement ids -/

theorem pyDictGet_mem {α : Type} {l : List (String × α)} {k : String}
    {v : α} (h : pyDictGet l k = some v) : (k, v) ∈ l := by
  unfold pyDictGet at h
  cases hf : l.find? (fun p => p.1 = k) with
  | none => rw [hf] at h; simp at h
  | some p =>
      rw [hf] at h
      have hm := List.mem_of_find?_eq_some hf
      have hp : p.1 = k := by simpa using List.find?_some hf
      have hv : p.2 = v := by simpa using h
      have : (k, v) = p := by
        cases p
        simp_all
      rw [this]
      exact hm

theorem applyAck_waiting_mem {f : String} {a : AckFields} {s : ServerState}
    {p : String × Int} (h : p ∈ (applyAck f a s).waiting) : p ∈ s.waiting := by
  simp only [applyAck] at h
  split at h <;> split at h
  case isTrue.isTrue => exact mem_pyDictPop h
  case isTrue.isFalse => exact h
  case isFalse.isTrue => exact mem_pyDictPop h
  case isFalse.isFalse => exact h

theorem applyAck_nextCmdId (f : String) (a : AckFields) (s : ServerState) :
    (applyAck f a s).nextCmdId = s.nextCmdId := by
  simp only [applyAck]
  split <;> split <;> rfl

theorem cdataGet_queue (a b c : Option String) (s : ServerState) :
    (iclock_cdata_get a b c s).2.waiting = s.waiting ∧
    (iclock_cdata_get a b c s).2.nextCmdId = s.nextCmdId := by
  simp only [iclock_cdata_get]
  constructor <;> (split <;> rfl)

theorem cdataPost_waiting_mem {a b : Option String} {body : List Char}
    {ok : Bool} {s : ServerState} {p : String × Int}
    (h : p ∈ (iclock_cdata_post a b body ok s).2.waiting) : p ∈ s.waiting := by
  simp only [iclock_cdata_post] at h
  cases hE : extractPushAckFields (pyStrip body) with
  | none =>
      rw [hE] at h
      dsimp only at h
      split at h
      · split at h <;> exact h
      · exact h
  | some ack =>
      rw [hE] at h
      dsimp only at h
      have conclude :
          p ∈ (applyAck (a.getD "unknown") ack
            { s with lastIclock :=
                pushCap s.lastIclock ⟨"POST", a, b, String.mk body⟩ }).waiting →
          p ∈ s.waiting := fun hx =>
        applyAck_waiting_mem (s := { s with lastIclock := pushCap s.lastIclock ⟨"POST", a, b, String.mk body⟩ }) hx
      split at h
      · split at h <;> exact conclude h
      · exact conclude h

theorem cdataPost_nextCmdId (a b : Option String) (body : List Char)
    (ok : Bool) (s : ServerState) :
    (iclock_cdata_post a b body ok s).2.nextCmdId = s.nextCmdId := by
  simp only [iclock_cdata_post]
  cases hE : extractPushAckFields (pyStrip body) with
  | none =>
      dsimp only
      split
      · split <;> rfl
      · rfl
  | some ack =>
      dsimp only
      have e := applyAck_nextCmdId (a.getD "unknown") ack
        { s with lastIclock :=
            pushCap s.lastIclock ⟨"POST", a, b, String.mk body⟩ }
      split
      · split <;> exact e
      · exact e

theorem devicecmd_waiting_mem {a : Option String} {body : List Char}
    {s : ServerState} {p : String × Int}
    (h : p ∈ (iclock_devicecmd a body s).2.waiting) : p ∈ s.waiting := by
  simp only [iclock_devicecmd] at h
  cases hE : extractPushAckFields (pyStrip body) with
  | none => rw [hE] at h; exact h
  | some ack =>
      rw [hE] at h
      dsimp only at h
      have h2 : p ∈ (applyAck (a.getD "") ack s).waiting := h
      exact applyAck_waiting_mem h2

theorem devicecmd_nextCmdId (a : Option String) (body : List Char)
    (s : ServerState) :
    (iclock_devicecmd a body s).2.nextCmdId = s.nextCmdId := by
  simp only [iclock_devicecmd]
  cases hE : extractPushAckFields (pyStrip body) with
  | none => rfl
  | some ack =>
      dsimp only
      exact applyAck_nextCmdId (a.getD "") ack s

theorem getrequest_queueIdsInv (q : Option String) {s : ServerState}
    (h : QueueIdsInv s) : QueueIdsInv (iclock_getrequest q s).2 := by
  obtain ⟨hc, hw⟩ := h
  simp only [iclock_getrequest]
  split
  · exact ⟨hc, hw⟩
  · split
    · exact ⟨hc, hw⟩
    · split
      · refine ⟨?_, ?_⟩
        · show 9001 ≤ s.nextCmdId + 1
          omega
        · intro p hp
          have hp2 : p ∈ pyDictSet s.waiting (q.getD "") s.nextCmdId := hp
          show 9001 ≤ p.2 ∧ p.2 < s.nextCmdId + 1
          rcases mem_pyDictSet hp2 with hm | hm
          · obtain ⟨h1, h2⟩ := hw p hm
            exact ⟨h1, by omega⟩
          · rw [hm]
            exact ⟨hc, by omega⟩
      · exact ⟨hc, hw⟩

/-- One inbound call preserves well-formedness of the command queue. -/
theorem applyOp_queueIdsInv (op : Op) {s : ServerState}
    (h : QueueIdsInv s) : QueueIdsInv (applyOp op s) := by
  obtain ⟨hc, hw⟩ := h
  cases op with
  | cdataGet a b c =>
      obtain ⟨e1, e2⟩ := cdataGet_queue a b c s
      refine ⟨?_, ?_⟩
      · show 9001 ≤ (iclock_cdata_get a b c s).2.nextCmdId
        rw [e2]
        exact hc
      · intro p hp
        have hp2 : p ∈ (iclock_cdata_get a b c s).2.waiting := hp
        rw [e1] at hp2
        obtain ⟨h1, h2⟩ := hw p hp2
        show 9001 ≤ p.2 ∧ p.2 < (iclock_cdata_get a b c s).2.nextCmdId
        rw [e2]
        exact ⟨h1, h2⟩
  | cdataPost a b body ok =>
      refine ⟨?_, ?_⟩
      · show 9001 ≤ (iclock_cdata_post a b body ok s).2.nextCmdId
        rw [cdataPost_nextCmdId]
        exact hc
      · intro p hp
        have hp2 : p ∈ (iclock_cdata_post a b body ok s).2.waiting := hp
        obtain ⟨h1, h2⟩ := hw p (cdataPost_waiting_mem hp2)
        show 9001 ≤ p.2 ∧ p.2 < (iclock_cdata_post a b body ok s).2.nextCmdId
        rw [cdataPost_nextCmdId]
        exact ⟨h1, h2⟩
  | getrequest q => exact getrequest_queueIdsInv q ⟨hc, hw⟩
  | devicecmd a body =>
      refine ⟨?_, ?_⟩
      · show 9001 ≤ (iclock_devicecmd a body s).2.nextCmdId
        rw [devicecmd_nextCmdId]
        exact hc
      · intro p hp
        have hp2 : p ∈ (iclock_devicecmd a body s).2.waiting := hp
        obtain ⟨h1, h2⟩ := hw p (devicecmd_waiting_mem hp2)
        show 9001 ≤ p.2 ∧ p.2 < (iclock_devicecmd a body s).2.nextCmdId
        rw [devicecmd_nextCmdId]
        exact ⟨h1, h2⟩
  | adminClear sn => exact ⟨hc, hw⟩

/-- Every reachable server state has a well-formed command queue: the
counter is at least its initial value 9001 and every outstanding
dispatched id lies in `[9001, counter)`. -/
theorem reachable_queueIdsInv {s : ServerState} (h : Reachable s) :
    QueueIdsInv s := by
  induction h with
  | init st =>
      refine ⟨le_refl _, ?_⟩
      intro p hp
      cases hp
  | step op hre ih => exact applyOp_queueIdsInv op ih

/-- C10: in any reachable state, an acknowledgement whose `ID` field is
not a decimal integer (CPython `int` raises, so the id is coerced to
the sentinel `-1`) never clears a waiting-ack entry and leaves the
queue state entirely unchanged, because every outstanding dispatched id
is at least 9001. -/
theorem unparsable_ack_id_never_clears (snParam : Option String)
    (body : List Char) {s : ServerState} (hreach : Reachable s)
    (ack : AckFields) (hA : extractPushAckFields (pyStrip body) = some ack)
    (hbad : pyParseInt ack.id.toList = none) :
    (iclock_devicecmd snParam body s).2.waiting = s.waiting ∧
    (iclock_devicecmd snParam body s).2.pending = s.pending ∧
    (iclock_devicecmd snParam body s).2.nextCmdId = s.nextCmdId := by
  have hinv := reachable_queueIdsInv hreach
  simp only [iclock_devicecmd]
  rw [hA]
  simp only [applyAck, hbad, Option.getD_none]
  have hcond :
      ¬ (pyDictGet s.waiting
          (if ack.sn ≠ "" then ack.sn else snParam.getD "") =
            some (-1 : Int)) := by
    intro hEq
    have hmem := pyDictGet_mem hEq
    have := (hinv.2 _ hmem).1
    omega
  rw [if_neg hcond]
  exact ⟨rfl, rfl, rfl⟩

/-- Witness for C10: after enqueuing and dispatching a command for
serial `A` (waiting id 9001), an acknowledgement with `ID=abc` changes
nothing. -/
theorem unparsable_ack_id_never_clears_witness :
    (iclock_devicecmd (some "A") "ID=abc&Return=0".toList
        (applyOp (.getrequest (some "A"))
          (applyOp (.adminClear "A") (initState emptyStore)))).2.waiting =
      (applyOp (.getrequest (some "A"))
        (applyOp (.adminClear "A") (initState emptyStore))).waiting ∧
    (iclock_devicecmd (some "A") "ID=abc&Return=0".toList
        (applyOp (.getrequest (some "A"))
          (applyOp (.adminClear "A") (initState emptyStore)))).2.pending =
      (applyOp (.getrequest (some "A"))
        (applyOp (.adminClear "A") (initState emptyStore))).pending ∧
    (iclock_devicecmd (some "A") "ID=abc&Return=0".toList
        (applyOp (.getrequest (some "A"))
          (applyOp (.adminClear "A") (initState emptyStore)))).2.nextCmdId =
      (applyOp (.getrequest (some "A"))
        (applyOp (.adminClear "A") (initState emptyStore))).nextCmdId :=
  unparsable_ack_id_never_clears (some "A") "ID=abc&Return=0".toList
    (Reachable.step (.getrequest (some "A"))
      (Reachable.step (.adminClear "A") (Reachable.init emptyStore)))
    (AckFields.mk "abc" "" "0" "") (by decide) (by decide)

/-! ## Helper lemmas: the ATTLOG batch loop -/

theorem processLine_snapshot (sn : String) (bs : BatchState)
    (line : List Char) :
    (processLine sn bs line).snapshot = bs.snapshot := by
  unfold processLine
  cases parseAttlogLine line with
  | blank => rfl
  | malformed => rfl
  | wellformed p t st v =>
      dsimp only
      split
      · rfl
      · split <;> rfl

theorem runLines_snapshot (sn : String) (lines : List (List Char)) :
    ∀ bs : BatchState, (runLines sn bs lines).snapshot = bs.snapshot := by
  induction lines with
  | nil => intro bs; rfl
  | cons line rest ih =>
      intro bs
      show (runLines sn (processLine sn bs line) rest).snapshot = bs.snapshot
      rw [ih, processLine_snapshot]

theorem processLine_newLogs_mono (sn : String) (bs : BatchState)
    (line : List Char) :
    ∃ suf, (processLine sn bs line).newLogs = bs.newLogs ++ suf := by
  unfold processLine
  cases parseAttlogLine line with
  | blank => exact ⟨[], (List.append_nil _).symm⟩
  | malformed => exact ⟨[], (List.append_nil _).symm⟩
  | wellformed p t st v =>
      dsimp only
      split
      · exact ⟨[], (List.append_nil _).symm⟩
      · split <;> exact ⟨_, rfl⟩

theorem runLines_newLogs_mono (sn : String) (lines : List (List Char)) :
    ∀ bs : BatchState, ∃ suf,
      (runLines sn bs lines).newLogs = bs.newLogs ++ suf := by
  induction lines with
  | nil => intro bs; exact ⟨[], (List.append_nil _).symm⟩
  | cons line rest ih =>
      intro bs
      obtain ⟨s1, h1⟩ := processLine_newLogs_mono sn bs line
      obtain ⟨s2, h2⟩ := ih (processLine sn bs line)
      exact ⟨s1 ++ s2, by
        show (runLines sn (processLine sn bs line) rest).newLogs = _
        rw [h2, h1, List.append_assoc]⟩

theorem processLine_dup_skip (sn : String) (bs : BatchState)
    (line : List Char) (p : String) (t : PyDateTime) (st v : Int)
    (hparse : parseAttlogLine line = .wellformed p t st v)
    (hex : existsLog bs.snapshot p t) :
    processLine sn bs line = bs := by
  unfold processLine
  rw [hparse]
  dsimp only
  rw [if_pos hex]

theorem keyStored_mono (sn : String) (bs : BatchState) (line : List Char)
    {p : String} {t : PyDateTime} (h : keyStored bs p t) :
    keyStored (processLine sn bs line) p t := by
  cases h with
  | inl h => exact Or.inl (by rw [processLine_snapshot]; exact h)
  | inr h =>
      obtain ⟨l, hl, hk⟩ := h
      obtain ⟨suf, hsuf⟩ := processLine_newLogs_mono sn bs line
      exact Or.inr ⟨l, by rw [hsuf]; exact List.mem_append_left _ hl, hk⟩

theorem runLines_keyStored_mono (sn : String) (lines : List (List Char)) :
    ∀ bs : BatchState, ∀ {p : String} {t : PyDateTime},
      keyStored bs p t → keyStored (runLines sn bs lines) p t := by
  induction lines with
  | nil => intro bs p t h; exact h
  | cons line rest ih =>
      intro bs p t h
      exact ih (processLine sn bs line) (keyStored_mono sn bs line h)

theorem processLine_keyStored (sn : String) (bs : BatchState)
    (line : List Char) (p : String) (t : PyDateTime) (st v : Int)
    (hparse : parseAttlogLine line = .wellformed p t st v) :
    keyStored (processLine sn bs line) p t := by
  by_cases hex : existsLog bs.snapshot p t
  · rw [processLine_dup_skip sn bs line p t st v hparse hex]
    exact Or.inl hex
  · unfold processLine
    rw [hparse]
    dsimp only
    rw [if_neg hex]
    split
    · exact Or.inr ⟨_, List.mem_append_right _ (List.mem_singleton_self _),
        rfl, rfl⟩
    · exact Or.inr ⟨_, List.mem_append_right _ (List.mem_singleton_self _),
        rfl, rfl⟩

theorem runLines_all_keysStored (sn : String) (lines : List (List Char)) :
    ∀ bs : BatchState, ∀ line ∈ lines, ∀ (p : String) (t : PyDateTime)
      (st v : Int), parseAttlogLine line = .wellformed p t st v →
      keyStored (runLines sn bs lines) p t := by
  induction lines with
  | nil => intro bs line hmem; cases hmem
  | cons l rest ih =>
      intro bs line hmem p t st v hparse
      rcases List.mem_cons.mp hmem with hEq | hmem
      · subst hEq
        exact runLines_keyStored_mono sn rest (processLine sn bs line)
          (processLine_keyStored sn bs line p t st v hparse)
      · exact ih (processLine sn bs l) line hmem p t st v hparse

theorem processLine_no_change (sn : String) (bs : BatchState)
    (line : List Char)
    (hkeys : ∀ (p : String) (t : PyDateTime) (st v : Int),
      parseAttlogLine line = .wellformed p t st v →
      existsLog bs.snapshot p t) :
    commitView (processLine sn bs line) = commitView bs := by
  unfold processLine
  cases hparse : parseAttlogLine line with
  | blank => rfl
  | malformed => rfl
  | wellformed p t st v =>
      dsimp only
      rw [if_pos (hkeys p t st v hparse)]

theorem runLines_no_change (sn : String) (lines : List (List Char)) :
    ∀ bs : BatchState,
      (∀ line ∈ lines, ∀ (p : String) (t : PyDateTime) (st v : Int),
        parseAttlogLine line = .wellformed p t st v →
        existsLog bs.snapshot p t) →
      commitView (runLines sn bs lines) = commitView bs := by
  induction lines with
  | nil => intro bs _; rfl
  | cons line rest ih =>
      intro bs hkeys
      have h1 : commitView (processLine sn bs line) = commitView bs :=
        processLine_no_change sn bs line
          (fun p t st v hp => hkeys line (List.mem_cons_self _ _) p t st v hp)
      have hsnap : (processLine sn bs line).snapshot = bs.snapshot :=
        processLine_snapshot sn bs line
      have h2 : commitView (runLines sn (processLine sn bs line) rest) =
          commitView (processLine sn bs line) := by
        refine ih (processLine sn bs line) ?_
        intro l hl p t st v hp
        rw [hsnap]
        exact hkeys l (List.mem_cons_of_mem _ hl) p t st v hp
      show commitView (runLines sn (processLine sn bs line) rest) =
        commitView bs
      rw [h2, h1]

theorem attlogStore_true_eq (sn : String) (body : List Char) (st : Store) :
    attlogStore sn body true st =
      commitBatch (runLines sn (initBatch st) (pySplitlines (pyStrip body))) :=
  rfl

/-! ## Claim C1: ATTLOG resubmission is a no-op -/

/-- C1: processing the same ATTLOG batch twice (both commits
succeeding) leaves exactly the store produced by processing it once —
the same stored events and sessions, hence the same stored event count;
and any line whose `(pin, timestamp)` pair already exists in the
committed store is skipped without creating a row, without touching the
sessions and without incrementing the stored count (the whole batch
state is unchanged). -/
theorem attlog_resubmission_noop (sn : String) (body : List Char)
    (st : Store) :
    attlogStore sn body true (attlogStore sn body true st) =
      attlogStore sn body true st ∧
    (∀ (bs : BatchState) (line : List Char) (p : String) (t : PyDateTime)
      (st2 v : Int), parseAttlogLine line = .wellformed p t st2 v →
      existsLog bs.snapshot p t → processLine sn bs line = bs) := by
  refine ⟨?_, fun bs line p t st2 v hp hex =>
    processLine_dup_skip sn bs line p t st2 v hp hex⟩
  have hsnap1 : (runLines sn (initBatch st)
      (pySplitlines (pyStrip body))).snapshot = st :=
    runLines_snapshot sn (pySplitlines (pyStrip body)) (initBatch st)
  have hlogs1 : (attlogStore sn body true st).logs =
      st.logs ++ (runLines sn (initBatch st)
        (pySplitlines (pyStrip body))).newLogs := by
    rw [attlogStore_true_eq]
    show (runLines sn (initBatch st)
        (pySplitlines (pyStrip body))).snapshot.logs ++ _ = _
    rw [hsnap1]
  have hkeys : ∀ line ∈ pySplitlines (pyStrip body),
      ∀ (p : String) (t : PyDateTime) (st2 v : Int),
      parseAttlogLine line = .wellformed p t st2 v →
      existsLog (initBatch (attlogStore sn body true st)).snapshot p t := by
    intro line hl p t st2 v hp
    have hks := runLines_all_keysStored sn (pySplitlines (pyStrip body))
      (initBatch st) line hl p t st2 v hp
    show existsLog (attlogStore sn body true st) p t
    cases hks with
    | inl h =>
        rw [hsnap1] at h
        obtain ⟨l, hm, hk⟩ := h
        exact ⟨l, by rw [hlogs1]; exact List.mem_append_left _ hm, hk⟩
    | inr h =>
        obtain ⟨l, hm, hk⟩ := h
        exact ⟨l, by rw [hlogs1]; exact List.mem_append_right _ hm, hk⟩
  have hcv := runLines_no_change sn (pySplitlines (pyStrip body))
    (initBatch (attlogStore sn body true st)) hkeys
  have h1 : (runLines sn (initBatch (attlogStore sn body true st))
      (pySplitlines (pyStrip body))).snapshot = attlogStore sn body true st :=
    congrArg (fun q => q.1) hcv
  have h2 : (runLines sn (initBatch (attlogStore sn body true st))
      (pySplitlines (pyStrip body))).curSessions =
      (attlogStore sn body true st).sessions :=
    congrArg (fun q => q.2.1) hcv
  have h3 : (runLines sn (initBatch (attlogStore sn body true st))
      (pySplitlines (pyStrip body))).newLogs = [] :=
    congrArg (fun q => q.2.2.1) hcv
  have h4 : (runLines sn (initBatch (attlogStore sn body true st))
      (pySplitlines (pyStrip body))).newSessions = [] :=
    congrArg (fun q => q.2.2.2) hcv
  rw [attlogStore_true_eq sn body (attlogStore sn body true st)]
  unfold commitBatch
  rw [h2, h3, h4,
    show (runLines sn (initBatch (attlogStore sn body true st))
        (pySplitlines (pyStrip body))).snapshot.logs =
      (attlogStore sn body true st).logs from
        congrArg Store.logs h1]
  simp

/-- Witness for C1 at the spec's example batch on the empty store. -/
theorem attlog_resubmission_noop_witness :
    attlogStore "AAML1"
        "7\t2024-01-10 08:00:00\t0\t1\n7\t2024-01-10 17:00:00\t1\t1\n".toList
        true
        (attlogStore "AAML1"
          "7\t2024-01-10 08:00:00\t0\t1\n7\t2024-01-10 17:00:00\t1\t1\n".toList
          true emptyStore) =
      attlogStore "AAML1"
        "7\t2024-01-10 08:00:00\t0\t1\n7\t2024-01-10 17:00:00\t1\t1\n".toList
        true emptyStore ∧
    (∀ (bs : BatchState) (line : List Char) (p : String) (t : PyDateTime)
      (st2 v : Int), parseAttlogLine line = .wellformed p t st2 v →
      existsLog bs.snapshot p t → processLine "AAML1" bs line = bs) :=
  attlog_resubmission_noop "AAML1"
    "7\t2024-01-10 08:00:00\t0\t1\n7\t2024-01-10 17:00:00\t1\t1\n".toList
    emptyStore

/-! ## Claim C2: uniqueness of stored events -/

theorem existsLog_iff_keyMem (st : Store) (p : String) (t : PyDateTime) :
    existsLog st p t ↔ (p, t) ∈ st.logs.map logKey := by
  constructor
  · rintro ⟨l, hm, h1, h2⟩
    exact List.mem_map.mpr ⟨l, hm, by rw [logKey, h1, h2]⟩
  · intro h
    obtain ⟨l, hm, hk⟩ := List.mem_map.mp h
    unfold logKey at hk
    exact ⟨l, hm, congrArg Prod.fst hk, congrArg Prod.snd hk⟩

theorem processLine_newLogs_fresh (sn : String) (bs : BatchState)
    (line : List Char)
    (h : ∀ l ∈ bs.newLogs, ¬ existsLog bs.snapshot l.pin l.timestamp) :
    ∀ l ∈ (processLine sn bs line).newLogs,
      ¬ existsLog bs.snapshot l.pin l.timestamp := by
  unfold processLine
  cases hparse : parseAttlogLine line with
  | blank => exact h
  | malformed => exact h
  | wellformed p t st v =>
      dsimp only
      split
      · exact h
      · rename_i hex
        have hnew : ∀ l ∈ bs.newLogs ++
            [(⟨p, t, st, v, verifyTypeName v, String.mk line, sn⟩ :
              AttendanceLog)],
            ¬ existsLog bs.snapshot l.pin l.timestamp := by
          intro l hl
          rcases List.mem_append.mp hl with hl | hl
          · exact h l hl
          · rw [List.mem_singleton.mp hl]
            exact hex
        split <;> exact hnew

theorem runLines_newLogs_fresh (sn : String) (lines : List (List Char)) :
    ∀ bs : BatchState,
      (∀ l ∈ bs.newLogs, ¬ existsLog bs.snapshot l.pin l.timestamp) →
      ∀ l ∈ (runLines sn bs lines).newLogs,
        ¬ existsLog bs.snapshot l.pin l.timestamp := by
  induction lines with
  | nil => intro bs h; exact h
  | cons line rest ih =>
      intro bs h l hl
      have hsnap := processLine_snapshot sn bs line
      have := ih (processLine sn bs line)
        (by rw [hsnap]; exact processLine_newLogs_fresh sn bs line h) l hl
      rw [hsnap] at this
      exact this

/-- C2 counterexample: the dedup query sees only the committed
snapshot (`autoflush=False`), so a single batch that repeats a line
stores the same `(pin, timestamp)` pair twice — uniqueness of stored
events fails, with no unique constraint in the table to stop it. -/
theorem stored_key_uniqueness_counterexample :
    ¬ UniqueKeys (attlogStore "AAML1"
      "7\t2024-01-10 08:00:00\t0\t1\n7\t2024-01-10 08:00:00\t0\t1\n".toList
      true emptyStore) ∧
    (attlogStore "AAML1"
      "7\t2024-01-10 08:00:00\t0\t1\n7\t2024-01-10 08:00:00\t0\t1\n".toList
      true emptyStore).logs.map logKey =
      [("7", ⟨2024, 1, 10, 8, 0, 0⟩), ("7", ⟨2024, 1, 10, 8, 0, 0⟩)] := by
  constructor
  · decide
  · decide

/-- C2 as amended: uniqueness of stored `(pin, timestamp)` pairs is
preserved by an ATTLOG upload whose batch does not itself store two
rows with the same pair; the mechanism is the pre-insert existence
check against the committed store — the `attendance_logs` table
declares no unique constraint at all. -/
theorem stored_key_uniqueness_preserved (sn : String) (body : List Char)
    (st : Store) (hU : UniqueKeys st)
    (hB : ((runLines sn (initBatch st)
      (pySplitlines (pyStrip body))).newLogs.map logKey).Nodup) :
    UniqueKeys (attlogStore sn body true st) ∧
    attendanceLogUniqueConstraints = [] := by
  refine ⟨?_, rfl⟩
  have hlogs : (attlogStore sn body true st).logs =
      st.logs ++ (runLines sn (initBatch st)
        (pySplitlines (pyStrip body))).newLogs := by
    rw [attlogStore_true_eq]
    show (runLines sn (initBatch st)
        (pySplitlines (pyStrip body))).snapshot.logs ++ _ = _
    rw [runLines_snapshot]
    rfl
  have hfresh : ∀ l ∈ (runLines sn (initBatch st)
      (pySplitlines (pyStrip body))).newLogs,
      ¬ existsLog st l.pin l.timestamp := by
    intro l hl
    have := runLines_newLogs_fresh sn (pySplitlines (pyStrip body))
      (initBatch st) (by intro l hl2; cases hl2) l hl
    exact this
  unfold UniqueKeys
  rw [hlogs, List.map_append, List.nodup_append]
  refine ⟨hU, hB, ?_⟩
  intro k hk1 hk2
  obtain ⟨l, hl, hkey⟩ := List.mem_map.mp hk2
  have hex : existsLog st l.pin l.timestamp := by
    rw [existsLog_iff_keyMem]
    have : logKey l = (l.pin, l.timestamp) := rfl
    rw [this] at hkey
    rw [hkey]
    exact hk1
  exact hfresh l hl hex

/-- Witness for the amended C2 on the spec's two-line example batch. -/
theorem stored_key_uniqueness_preserved_witness :
    UniqueKeys (attlogStore "AAML1"
      "7\t2024-01-10 08:00:00\t0\t1\n7\t2024-01-10 17:00:00\t1\t1\n".toList
      true emptyStore) ∧
    attendanceLogUniqueConstraints = [] :=
  stored_key_uniqueness_preserved "AAML1"
    "7\t2024-01-10 08:00:00\t0\t1\n7\t2024-01-10 17:00:00\t1\t1\n".toList
    emptyStore (by decide) (by decide)

/-! ## Helper lemmas: session pairing -/

theorem closeAt_cons (x : AttendanceSession) (l : List AttendanceSession)
    (i : Nat) (t : PyDateTime) :
    closeAt (x :: l) (i + 1) t = x :: closeAt l i t := by
  unfold closeAt
  rw [List.get?_cons_succ]
  cases l.get? i <;> rfl

theorem closeAt_append_right (a b : List AttendanceSession) (j : Nat)
    (t : PyDateTime) :
    closeAt (a ++ b) (a.length + j) t = a ++ closeAt b j t := by
  induction a with
  | nil => simp
  | cons x a ih =>
      show closeAt (x :: (a ++ b)) ((x :: a).length + j) t = _
      rw [show (x :: a).length + j = (a.length + j) + 1 from by
        simp [List.length_cons]; omega]
      rw [closeAt_cons, ih]
      rfl

theorem openCandsFrom_cons (p : String) (s : AttendanceSession)
    (l : List AttendanceSession) (i : Nat) :
    openCandsFrom p i (s :: l) =
      if s.pin = p ∧ s.check_out = none then
        (i, s) :: openCandsFrom p (i + 1) l
      else openCandsFrom p (i + 1) l := rfl

theorem openCandsFrom_append (p : String) (a b : List AttendanceSession) :
    ∀ i, openCandsFrom p i (a ++ b) =
      openCandsFrom p i a ++ openCandsFrom p (i + a.length) b := by
  induction a with
  | nil => intro i; simp [openCandsFrom]
  | cons s a ih =>
      intro i
      show openCandsFrom p i (s :: (a ++ b)) = _
      rw [openCandsFrom_cons, openCandsFrom_cons, ih (i + 1),
        show i + 1 + a.length = i + (s :: a).length from by
          simp [List.length_cons]; omega]
      split <;> rfl

theorem openCandsFrom_nil_of_ne (p : String) (a : List AttendanceSession)
    (h : ∀ s ∈ a, s.pin ≠ p) : ∀ i, openCandsFrom p i a = [] := by
  induction a with
  | nil => intro i; rfl
  | cons s a ih =>
      intro i
      rw [openCandsFrom_cons,
        if_neg (fun hc => h s (List.mem_cons_self _ _) hc.1)]
      exact ih (fun x hx => h x (List.mem_cons_of_mem _ hx)) (i + 1)

theorem pairUp_cons_cons (p : String) (t1 t2 : PyDateTime)
    (rest : List PyDateTime) :
    pairUp p (t1 :: t2 :: rest) =
      ⟨p, t1, some t2, "closed"⟩ :: pairUp p rest := rfl

theorem pairUp_length (p : String) :
    ∀ l : List PyDateTime, (pairUp p l).length = (l.length + 1) / 2
  | [] => by norm_num [pairUp]
  | [_] => by norm_num [pairUp]
  | t1 :: t2 :: rest => by
      rw [pairUp_cons_cons, List.length_cons, pairUp_length p rest]
      simp only [List.length_cons]
      omega

theorem pairUp_openCount (p : String) :
    ∀ l : List PyDateTime, openCount p (pairUp p l) = l.length % 2
  | [] => rfl
  | [t] => by simp [pairUp, openCount]
  | t1 :: t2 :: rest => by
      rw [pairUp_cons_cons]
      show openCount p (⟨p, t1, some t2, "closed"⟩ :: pairUp p rest) = _
      unfold openCount
      rw [List.countP_cons]
      simp only [decide_eq_true_eq]
      rw [if_neg (by simp)]
      have := pairUp_openCount p rest
      unfold openCount at this
      rw [this]
      simp only [List.length_cons]
      omega

theorem openCands_pairUp_even (p : String) :
    ∀ l : List PyDateTime, l.length % 2 = 0 → ∀ i,
      openCandsFrom p i (pairUp p l) = []
  | [] => by intro h i; rfl
  | [t] => by intro h i; simp at h
  | t1 :: t2 :: rest => by
      intro h i
      rw [pairUp_cons_cons, openCandsFrom_cons, if_neg (by simp)]
      exact openCands_pairUp_even p rest
        (by simp only [List.length_cons] at h; omega) (i + 1)

theorem openCands_pairUp_odd (p : String) :
    ∀ l : List PyDateTime, l.length % 2 = 1 → ∀ i, ∃ t0,
      l.getLast? = some t0 ∧
      openCandsFrom p i (pairUp p l) =
        [(i + ((pairUp p l).length - 1), ⟨p, t0, none, "open"⟩)]
  | [] => by intro h; simp at h
  | [t] => by
      intro h i
      refine ⟨t, rfl, ?_⟩
      show openCandsFrom p i [⟨p, t, none, "open"⟩] = _
      rw [openCandsFrom_cons, if_pos ⟨rfl, rfl⟩]
      rfl
  | t1 :: t2 :: rest => by
      intro h i
      have hrl : rest.length % 2 = 1 := by
        simp only [List.length_cons] at h
        omega
      obtain ⟨t0, h1, h2⟩ := openCands_pairUp_odd p rest hrl (i + 1)
      have hplen : 1 ≤ (pairUp p rest).length := by
        rw [pairUp_length]
        omega
      refine ⟨t0, ?_, ?_⟩
      · cases rest with
        | nil => simp at hrl
        | cons r rs =>
            rw [List.getLast?_cons_cons, List.getLast?_cons_cons]
            exact h1
      · rw [pairUp_cons_cons, openCandsFrom_cons, if_neg (by simp), h2,
          show (i + 1) + ((pairUp p rest).length - 1) =
            i + ((⟨p, t1, some t2, "closed"⟩ :: pairUp p rest).length - 1)
            from by simp only [List.length_cons]; omega]

theorem pairUp_snoc_even (p : String) :
    ∀ l : List PyDateTime, l.length % 2 = 0 → ∀ t,
      pairUp p (l ++ [t]) = pairUp p l ++ [⟨p, t, none, "open"⟩]
  | [] => by intro h t; rfl
  | [t1] => by intro h; simp at h
  | t1 :: t2 :: rest => by
      intro h t
      show pairUp p (t1 :: t2 :: (rest ++ [t])) = _
      rw [pairUp_cons_cons, pairUp_cons_cons,
        pairUp_snoc_even p rest (by simp only [List.length_cons] at h; omega) t]
      rfl

theorem pairUp_close_last (p : String) :
    ∀ l : List PyDateTime, l.length % 2 = 1 → ∀ t,
      closeAt (pairUp p l) ((pairUp p l).length - 1) t = pairUp p (l ++ [t])
  | [] => by intro h; simp at h
  | [t1] => by
      intro h t
      show closeAt [⟨p, t1, none, "open"⟩] 0 t = pairUp p [t1, t]
      rfl
  | t1 :: t2 :: rest => by
      intro h t
      have hrl : rest.length % 2 = 1 := by
        simp only [List.length_cons] at h
        omega
      have hplen : 1 ≤ (pairUp p rest).length := by
        rw [pairUp_length]
        omega
      show closeAt (pairUp p (t1 :: t2 :: rest))
        ((pairUp p (t1 :: t2 :: rest)).length - 1) t =
        pairUp p (t1 :: t2 :: (rest ++ [t]))
      rw [pairUp_cons_cons, pairUp_cons_cons,
        show (⟨p, t1, some t2, "closed"⟩ :: pairUp p rest).length - 1 =
          ((pairUp p rest).length - 1) + 1 from by
            simp only [List.length_cons]; omega,
        closeAt_cons, pairUp_close_last p rest hrl t]

theorem pickLatest_single (c : Nat × AttendanceSession) :
    pickLatest [c] = some c := rfl

theorem findOpenIdx_none_shape (p : String) (base : List AttendanceSession)
    (done : List PyDateTime) (hb : ∀ s ∈ base, s.pin ≠ p)
    (hd : done.length % 2 = 0) :
    findOpenIdx p (base ++ pairUp p done) = none := by
  unfold findOpenIdx
  rw [openCandsFrom_append, openCandsFrom_nil_of_ne p base hb 0,
    openCands_pairUp_even p done hd]
  rfl

theorem findOpenIdx_some_shape (p : String) (base : List AttendanceSession)
    (done : List PyDateTime) (hb : ∀ s ∈ base, s.pin ≠ p)
    (hd : done.length % 2 = 1) :
    ∃ t0, done.getLast? = some t0 ∧
      findOpenIdx p (base ++ pairUp p done) =
        some (base.length + ((pairUp p done).length - 1)) := by
  obtain ⟨t0, h1, h2⟩ := openCands_pairUp_odd p done hd (0 + base.length)
  refine ⟨t0, h1, ?_⟩
  unfold findOpenIdx
  rw [openCandsFrom_append, openCandsFrom_nil_of_ne p base hb 0, h2]
  show (pickLatest [((0 + base.length) + ((pairUp p done).length - 1),
    ⟨p, t0, none, "open"⟩)]).map Prod.fst = _
  rw [pickLatest_single]
  simp

theorem singleUpload_close (sn : String) (body line : List Char)
    (p : String) (t : PyDateTime) (status verify : Int) (st : Store)
    (i : Nat) (hsplit : pySplitlines (pyStrip body) = [line])
    (hparse : parseAttlogLine line = .wellformed p t status verify)
    (hnew : ¬ existsLog st p t)
    (hidx : findOpenIdx p st.sessions = some i) :
    attlogStore sn body true st =
      ⟨st.logs ++ [mkLog sn line p t status verify],
        closeAt st.sessions i t⟩ := by
  rw [attlogStore_true_eq, hsplit]
  show commitBatch (processLine sn (initBatch st) line) = _
  unfold processLine
  rw [hparse]
  dsimp only [initBatch]
  rw [if_neg (show ¬ existsLog st p t from hnew), hidx]
  dsimp only [commitBatch]
  simp [mkLog]

theorem singleUpload_open (sn : String) (body line : List Char)
    (p : String) (t : PyDateTime) (status verify : Int) (st : Store)
    (hsplit : pySplitlines (pyStrip body) = [line])
    (hparse : parseAttlogLine line = .wellformed p t status verify)
    (hnew : ¬ existsLog st p t)
    (hidx : findOpenIdx p st.sessions = none) :
    attlogStore sn body true st =
      ⟨st.logs ++ [mkLog sn line p t status verify],
        st.sessions ++ [⟨p, t, none, "open"⟩]⟩ := by
  rw [attlogStore_true_eq, hsplit]
  show commitBatch (processLine sn (initBatch st) line) = _
  unfold processLine
  rw [hparse]
  dsimp only [initBatch]
  rw [if_neg (show ¬ existsLog st p t from hnew), hidx]
  dsimp only [commitBatch]
  simp [mkLog]

theorem uploadEach_cons (sn : String) (b : List Char)
    (bodies : List (List Char)) (st : Store) :
    uploadEach sn (b :: bodies) st =
      uploadEach sn bodies (attlogStore sn b true st) := rfl

/-- One single-event upload per event: toggle pairing appends exactly
the `pairUp` sessions of the new timestamps after whatever was already
paired. -/
theorem uploadEach_pairUp (sn p : String) :
    ∀ (events : List (List Char × PyDateTime)) (st : Store)
      (base : List AttendanceSession) (done : List PyDateTime),
      st.sessions = base ++ pairUp p done →
      (∀ s ∈ base, s.pin ≠ p) →
      (∀ e ∈ events, ∃ line status verify,
        pySplitlines (pyStrip e.1) = [line] ∧
        parseAttlogLine line = .wellformed p e.2 status verify) →
      (∀ e ∈ events, ¬ existsLog st p e.2) →
      (events.map Prod.snd).Nodup →
      (uploadEach sn (events.map Prod.fst) st).sessions =
        base ++ pairUp p (done ++ events.map Prod.snd)
  | [] => by
      intro st base done hS hb _ _ _
      simpa using hS
  | e :: rest => by
      intro st base done hS hb hwf hfresh hnd
      obtain ⟨line, status, verify, hsplit, hparse⟩ :=
        hwf e (List.mem_cons_self _ _)
      have hnew : ¬ existsLog st p e.2 := hfresh e (List.mem_cons_self _ _)
      have hnd2 : (rest.map Prod.snd).Nodup := (List.nodup_cons.mp hnd).2
      have hnotin : e.2 ∉ rest.map Prod.snd := (List.nodup_cons.mp hnd).1
      have hwf2 : ∀ x ∈ rest, ∃ line status verify,
          pySplitlines (pyStrip x.1) = [line] ∧
          parseAttlogLine line = .wellformed p x.2 status verify :=
        fun x hx => hwf x (List.mem_cons_of_mem _ hx)
      by_cases hpar : done.length % 2 = 0
      · have hidx : findOpenIdx p st.sessions = none := by
          rw [hS]
          exact findOpenIdx_none_shape p base done hb hpar
        have hstep := singleUpload_open sn e.1 line p e.2 status verify st
          hsplit hparse hnew hidx
        have hsess : (attlogStore sn e.1 true st).sessions =
            base ++ pairUp p (done ++ [e.2]) := by
          rw [hstep]
          show st.sessions ++ [⟨p, e.2, none, "open"⟩] = _
          rw [hS, pairUp_snoc_even p done hpar e.2, List.append_assoc]
        have hlogs : (attlogStore sn e.1 true st).logs =
            st.logs ++ [mkLog sn line p e.2 status verify] := by
          rw [hstep]
        have hfresh2 : ∀ x ∈ rest, ¬ existsLog (attlogStore sn e.1 true st) p x.2 := by
          intro x hx hex
          obtain ⟨l, hl, hk1, hk2⟩ := hex
          rw [hlogs] at hl
          rcases List.mem_append.mp hl with hl | hl
          · exact hfresh x (List.mem_cons_of_mem _ hx) ⟨l, hl, hk1, hk2⟩
          · rw [List.mem_singleton.mp hl] at hk2
            have : x.2 = e.2 := by
              rw [← hk2]
              rfl
            exact hnotin (this ▸ List.mem_map_of_mem Prod.snd hx)
        have hrec := uploadEach_pairUp sn p rest (attlogStore sn e.1 true st)
          base (done ++ [e.2]) hsess hb hwf2 hfresh2 hnd2
        show (uploadEach sn (rest.map Prod.fst)
          (attlogStore sn e.1 true st)).sessions = _
        rw [hrec]
        rw [show done ++ (e :: rest).map Prod.snd =
          (done ++ [e.2]) ++ rest.map Prod.snd from by simp]
      · have hpar1 : done.length % 2 = 1 := by omega
        obtain ⟨t0, hlast, hidx0⟩ :=
          findOpenIdx_some_shape p base done hb hpar1
        have hidx : findOpenIdx p st.sessions =
            some (base.length + ((pairUp p done).length - 1)) := by
          rw [hS]
          exact hidx0
        have hstep := singleUpload_close sn e.1 line p e.2 status verify st
          (base.length + ((pairUp p done).length - 1)) hsplit hparse hnew hidx
        have hsess : (attlogStore sn e.1 true st).sessions =
            base ++ pairUp p (done ++ [e.2]) := by
          rw [hstep]
          show closeAt st.sessions _ e.2 = _
          rw [hS, closeAt_append_right, pairUp_close_last p done hpar1 e.2]
        have hlogs : (attlogStore sn e.1 true st).logs =
            st.logs ++ [mkLog sn line p e.2 status verify] := by
          rw [hstep]
        have hfresh2 : ∀ x ∈ rest, ¬ existsLog (attlogStore sn e.1 true st) p x.2 := by
          intro x hx hex
          obtain ⟨l, hl, hk1, hk2⟩ := hex
          rw [hlogs] at hl
          rcases List.mem_append.mp hl with hl | hl
          · exact hfresh x (List.mem_cons_of_mem _ hx) ⟨l, hl, hk1, hk2⟩
          · rw [List.mem_singleton.mp hl] at hk2
            have : x.2 = e.2 := by
              rw [← hk2]
              rfl
            exact hnotin (this ▸ List.mem_map_of_mem Prod.snd hx)
        have hrec := uploadEach_pairUp sn p rest (attlogStore sn e.1 true st)
          base (done ++ [e.2]) hsess hb hwf2 hfresh2 hnd2
        show (uploadEach sn (rest.map Prod.fst)
          (attlogStore sn e.1 true st)).sessions = _
        rw [hrec]
        rw [show done ++ (e :: rest).map Prod.snd =
          (done ++ [e.2]) ++ rest.map Prod.snd from by simp]

/-! ## Claim C3: pairing alternation -/

/-- C3 counterexample: the claim as stated fails when the events arrive
in one batch.  With `autoflush=False` the open-session query inside the
loop cannot see the session created for an earlier line of the same
batch, so a two-line batch for a fresh badge yields two open sessions —
not `ceil(2/2) = 1` session `[open@t1 → closed@t2]`. -/
theorem pairing_alternation_counterexample :
    (attlogStore "AAML1"
      "7\t2024-01-10 08:00:00\t0\t1\n7\t2024-01-10 17:00:00\t1\t1\n".toList
      true emptyStore).sessions =
      [⟨"7", ⟨2024, 1, 10, 8, 0, 0⟩, none, "open"⟩,
       ⟨"7", ⟨2024, 1, 10, 17, 0, 0⟩, none, "open"⟩] ∧
    ¬ (attlogStore "AAML1"
      "7\t2024-01-10 08:00:00\t0\t1\n7\t2024-01-10 17:00:00\t1\t1\n".toList
      true emptyStore).sessions.length = (2 + 1) / 2 := by
  exact ⟨by decide, by decide⟩

/-- C3 as amended: for a badge id with no prior sessions, ingesting `n`
well-formed, non-duplicate events in order **each in its own upload**
(each commit succeeding before the next poll) appends exactly the
toggle pairing of the timestamps: odd-numbered events open a session at
their timestamp, even-numbered events close the currently open one, so
there are exactly `ceil(n/2) = (n+1)/2` sessions for the badge of which
exactly `n % 2` (the last iff `n` is odd) are open — regardless of the
events' status codes.  Within one multi-line batch the alternation does
not hold (see the counterexample). -/
theorem pairing_alternation_per_upload (sn p : String)
    (events : List (List Char × PyDateTime)) (st : Store)
    (hb : ∀ s ∈ st.sessions, s.pin ≠ p)
    (hwf : ∀ e ∈ events, ∃ line status verify,
      pySplitlines (pyStrip e.1) = [line] ∧
      parseAttlogLine line = .wellformed p e.2 status verify)
    (hfresh : ∀ e ∈ events, ¬ existsLog st p e.2)
    (hnd : (events.map Prod.snd).Nodup) :
    (uploadEach sn (events.map Prod.fst) st).sessions =
      st.sessions ++ pairUp p (events.map Prod.snd) ∧
    (pairUp p (events.map Prod.snd)).length = (events.length + 1) / 2 ∧
    openCount p (pairUp p (events.map Prod.snd)) = events.length % 2 := by
  refine ⟨?_, ?_, ?_⟩
  · have h := uploadEach_pairUp sn p events st st.sessions []
      (by rw [show pairUp p [] = [] from rfl, List.append_nil]) hb hwf hfresh
      hnd
    simpa using h
  · rw [pairUp_length, List.length_map]
  · rw [pairUp_openCount, List.length_map]

/-- Witness for the amended C3: three single-event uploads at
`08:00 < 12:00 < 17:00` for fresh badge `7` on the empty store. -/
theorem pairing_alternation_per_upload_witness :
    (uploadEach "AAML1" (c3WitnessEvents.map Prod.fst) emptyStore).sessions =
      emptyStore.sessions ++ pairUp "7" (c3WitnessEvents.map Prod.snd) ∧
    (pairUp "7" (c3WitnessEvents.map Prod.snd)).length =
      (c3WitnessEvents.length + 1) / 2 ∧
    openCount "7" (pairUp "7" (c3WitnessEvents.map Prod.snd)) =
      c3WitnessEvents.length % 2 :=
  pairing_alternation_per_upload "AAML1" "7" c3WitnessEvents emptyStore
    (by intro s hs; exact absurd hs (List.not_mem_nil s))
    (by
      intro e he
      simp only [c3WitnessEvents, List.mem_cons, List.not_mem_nil,
        or_false] at he
      rcases he with rfl | rfl | rfl
      · exact ⟨"7\t2024-01-10 08:00:00\t0\t1".toList, 0, 1, by decide,
          by decide⟩
      · exact ⟨"7\t2024-01-10 12:00:00\t1\t1".toList, 1, 1, by decide,
          by decide⟩
      · exact ⟨"7\t2024-01-10 17:00:00\t0\t1".toList, 0, 1, by decide,
          by decide⟩)
    (by
      intro e he hex
      obtain ⟨l, hl, _⟩ := hex
      exact absurd hl (List.not_mem_nil l))
    (by decide)

/-! ## Claim C4: at most one open session per badge -/

theorem newLogsFor_append (p : String) (a b : List AttendanceLog) :
    newLogsFor p (a ++ b) = newLogsFor p a + newLogsFor p b :=
  List.countP_append _ _ _

theorem newLogsFor_le_append (p : String) (a b : List AttendanceLog) :
    newLogsFor p a ≤ newLogsFor p (a ++ b) := by
  rw [newLogsFor_append]
  omega

theorem newLogsFor_snoc (p : String) (a : List AttendanceLog)
    (l : AttendanceLog) :
    newLogsFor p (a ++ [l]) =
      newLogsFor p a + (if l.pin = p then 1 else 0) := by
  rw [newLogsFor_append]
  unfold newLogsFor
  simp [List.countP_cons]

theorem openCount_append (q : String) (a b : List AttendanceSession) :
    openCount q (a ++ b) = openCount q a + openCount q b :=
  List.countP_append _ _ _

theorem openCount_closeAt_le (q : String) :
    ∀ (l : List AttendanceSession) (i : Nat) (t : PyDateTime),
      openCount q (closeAt l i t) ≤ openCount q l := by
  intro l
  induction l with
  | nil => intro i t; exact le_refl _
  | cons y l ih =>
      intro i t
      cases i with
      | zero =>
          show openCount q (closeAt (y :: l) 0 t) ≤ _
          unfold closeAt
          rw [show (y :: l).get? 0 = some y from rfl]
          show openCount q (closeSession y t :: l) ≤ openCount q (y :: l)
          unfold openCount
          rw [List.countP_cons, List.countP_cons,
            if_neg (by simp [closeSession])]
          split <;> omega
      | succ i =>
          rw [closeAt_cons]
          unfold openCount
          rw [List.countP_cons, List.countP_cons]
          have := ih i t
          unfold openCount at this
          omega

theorem mem_of_get?_eq_some {α : Type} {l : List α} {i : Nat} {x : α}
    (h : l.get? i = some x) : x ∈ l := by
  have := List.get?_mem h
  exact this

theorem get?_exists_of_mem {α : Type} {l : List α} {x : α} (h : x ∈ l) :
    ∃ i, l.get? i = some x := by
  obtain ⟨n, hn⟩ := List.get_of_mem h
  exact ⟨n.1, by rw [List.get?_eq_get n.2, hn]⟩

theorem pickLatest_mem :
    ∀ {cands : List (Nat × AttendanceSession)} {c : Nat × AttendanceSession},
      pickLatest cands = some c → c ∈ cands := by
  intro cands
  induction cands with
  | nil => intro c h; cases h
  | cons d rest ih =>
      intro c h
      unfold pickLatest at h
      cases hr : pickLatest rest with
      | none =>
          rw [hr] at h
          rw [← Option.some_injective _ h]
          exact List.mem_cons_self _ _
      | some best =>
          rw [hr] at h
          dsimp only at h
          by_cases hlt : dtLt best.2.check_in d.2.check_in
          · rw [if_pos hlt] at h
            rw [← Option.some_injective _ h]
            exact List.mem_cons_self _ _
          · rw [if_neg hlt] at h
            rw [← Option.some_injective _ h]
            exact List.mem_cons_of_mem _ (ih hr)

theorem openCandsFrom_mem_spec (p : String) :
    ∀ (l : List AttendanceSession) (j : Nat)
      (c : Nat × AttendanceSession), c ∈ openCandsFrom p j l →
      ∃ k, c.1 = j + k ∧ l.get? k = some c.2 ∧ c.2.pin = p ∧
        c.2.check_out = none := by
  intro l
  induction l with
  | nil => intro j c h; cases h
  | cons s l ih =>
      intro j c h
      rw [openCandsFrom_cons] at h
      by_cases hc : s.pin = p ∧ s.check_out = none
      · rw [if_pos hc] at h
        rcases List.mem_cons.mp h with h | h
        · subst h
          exact ⟨0, by simp, rfl, hc.1, hc.2⟩
        · obtain ⟨k, h0, h1, h2, h3⟩ := ih (j + 1) c h
          exact ⟨k + 1, by omega, by rw [List.get?_cons_succ]; exact h1,
            h2, h3⟩
      · rw [if_neg hc] at h
        obtain ⟨k, h0, h1, h2, h3⟩ := ih (j + 1) c h
        exact ⟨k + 1, by omega, by rw [List.get?_cons_succ]; exact h1,
          h2, h3⟩

theorem pickLatest_eq_none :
    ∀ {cands : List (Nat × AttendanceSession)},
      pickLatest cands = none → cands = [] := by
  intro cands
  cases cands with
  | nil => intro h; rfl
  | cons d rest =>
      intro h
      unfold pickLatest at h
      cases hr : pickLatest rest with
      | none => rw [hr] at h; dsimp only at h; cases h
      | some best =>
          rw [hr] at h
          dsimp only at h
          split at h <;> cases h

theorem openCandsFrom_eq_nil_spec (p : String) :
    ∀ (l : List AttendanceSession) (j : Nat),
      openCandsFrom p j l = [] →
      ∀ s ∈ l, ¬ (s.pin = p ∧ s.check_out = none) := by
  intro l
  induction l with
  | nil => intro j h s hs; cases hs
  | cons x l ih =>
      intro j h s hs
      rw [openCandsFrom_cons] at h
      by_cases hc : x.pin = p ∧ x.check_out = none
      · rw [if_pos hc] at h
        cases h
      · rw [if_neg hc] at h
        rcases List.mem_cons.mp hs with hs | hs
        · rw [hs]; exact hc
        · exact ih (j + 1) h s hs

theorem findOpenIdx_some_spec {p : String} {l : List AttendanceSession}
    {i : Nat} (h : findOpenIdx p l = some i) :
    ∃ s, l.get? i = some s ∧ s.pin = p ∧ s.check_out = none := by
  unfold findOpenIdx at h
  cases hp : pickLatest (openCandsFrom p 0 l) with
  | none => rw [hp] at h; cases h
  | some c =>
      rw [hp] at h
      have hc := pickLatest_mem hp
      obtain ⟨k, h0, h1, h2, h3⟩ := openCandsFrom_mem_spec p l 0 c hc
      have hci : c.1 = i := by simpa using h
      refine ⟨c.2, ?_, h2, h3⟩
      rw [← hci, h0, Nat.zero_add]
      exact h1

theorem findOpenIdx_none_spec {p : String} {l : List AttendanceSession}
    (h : findOpenIdx p l = none) :
    ∀ s ∈ l, ¬ (s.pin = p ∧ s.check_out = none) := by
  unfold findOpenIdx at h
  cases hp : pickLatest (openCandsFrom p 0 l) with
  | some c => rw [hp] at h; cases h
  | none =>
      exact openCandsFrom_eq_nil_spec p l 0 (pickLatest_eq_none hp)

theorem get?_set_same {α : Type} :
    ∀ (l : List α) (i : Nat) (a x : α), l.get? i = some x →
      (l.set i a).get? i = some a := by
  intro l
  induction l with
  | nil => intro i a x h; cases h
  | cons y l ih =>
      intro i a x h
      cases i with
      | zero => rfl
      | succ i =>
          show (y :: l.set i a).get? (i + 1) = some a
          rw [List.get?_cons_succ]
          exact ih i a x h

theorem get?_set_other {α : Type} :
    ∀ (l : List α) (i j : Nat) (a : α), j ≠ i →
      (l.set i a).get? j = l.get? j := by
  intro l
  induction l with
  | nil => intro i j a h; rfl
  | cons y l ih =>
      intro i j a h
      cases i with
      | zero =>
          cases j with
          | zero => exact absurd rfl h
          | succ j => rfl
      | succ i =>
          cases j with
          | zero => rfl
          | succ j =>
              show (y :: l.set i a).get? (j + 1) = _
              rw [List.get?_cons_succ, List.get?_cons_succ]
              exact ih i j a (fun e => h (by rw [e]))

theorem closeAt_get?_self {l : List AttendanceSession} {i : Nat}
    {x : AttendanceSession} (h : l.get? i = some x) (t : PyDateTime) :
    (closeAt l i t).get? i = some (closeSession x t) := by
  unfold closeAt
  rw [h]
  exact get?_set_same l i (closeSession x t) x h

theorem closeAt_get?_other {l : List AttendanceSession} {i j : Nat}
    (hne : j ≠ i) (t : PyDateTime) :
    (closeAt l i t).get? j = l.get? j := by
  unfold closeAt
  cases h : l.get? i with
  | none => rfl
  | some x => exact get?_set_other l i j (closeSession x t) hne

/-- One loop iteration preserves the batch invariant, provided the
batch as a whole stores at most one event per badge (the count bound is
stated on the state after the iteration; counts only grow). -/
theorem processLine_BatchInv (sn : String) (bs : BatchState)
    (line : List Char) (hJ : BatchInv bs)
    (hcount : ∀ q, newLogsFor q (processLine sn bs line).newLogs ≤ 1) :
    BatchInv (processLine sn bs line) := by
  obtain ⟨hJ1, hJ2, hJ3⟩ := hJ
  unfold processLine at hcount ⊢
  cases hparse : parseAttlogLine line with
  | blank => exact ⟨hJ1, hJ2, hJ3⟩
  | malformed => exact ⟨hJ1, hJ2, hJ3⟩
  | wellformed p t status verify =>
      rw [hparse] at hcount
      dsimp only at hcount ⊢
      by_cases hdup : existsLog bs.snapshot p t
      · rw [if_pos hdup]
        exact ⟨hJ1, hJ2, hJ3⟩
      · rw [if_neg hdup] at hcount ⊢
        cases hidx : findOpenIdx p bs.snapshot.sessions with
        | some i =>
            rw [hidx] at hcount
            dsimp only at hcount ⊢
            have hp0 : newLogsFor p bs.newLogs = 0 := by
              have h1 := hcount p
              rw [newLogsFor_snoc] at h1
              rw [if_pos rfl] at h1
              omega
            have hccnt : 1 ≤ newLogsFor p (bs.newLogs ++
                [(⟨p, t, status, verify, verifyTypeName verify,
                  String.mk line, sn⟩ : AttendanceLog)]) := by
              rw [newLogsFor_snoc, if_pos rfl]
              omega
            obtain ⟨s, hs, hsp, hso⟩ := findOpenIdx_some_spec hidx
            refine ⟨?_, ?_, ?_⟩
            · intro j
              by_cases hji : j = i
              · subst hji
                rcases hJ1 j with hL | ⟨s2, t2, hsnap2, hcur2, hcnt2⟩
                · right
                  refine ⟨s, t, hs, ?_, ?_⟩
                  · exact closeAt_get?_self (by rw [hL, hs]) t
                  · rw [hsp]
                    exact hccnt
                · right
                  have hseq : s2 = s := by
                    rw [hsnap2] at hs
                    exact Option.some_injective _ hs
                  subst hseq
                  refine ⟨s2, t, hsnap2, ?_, ?_⟩
                  · exact closeAt_get?_self hcur2 t
                  · rw [hsp]
                    exact hccnt
              · rcases hJ1 j with hL | ⟨s2, t2, h1, h2, h3⟩
                · left
                  rw [closeAt_get?_other hji t, hL]
                · right
                  exact ⟨s2, t2, h1, by rw [closeAt_get?_other hji t]; exact h2,
                    le_trans h3 (newLogsFor_le_append _ _ _)⟩
            · intro ns hns
              exact le_trans (hJ2 ns hns) (newLogsFor_le_append _ _ _)
            · intro q
              show openCount q
                (closeAt bs.curSessions i t ++ bs.newSessions) ≤ 1
              have hle := openCount_closeAt_le q bs.curSessions i t
              have h3 := hJ3 q
              rw [openCount_append] at h3 ⊢
              omega
        | none =>
            rw [hidx] at hcount
            dsimp only at hcount ⊢
            have hp0 : newLogsFor p bs.newLogs = 0 := by
              have h1 := hcount p
              rw [newLogsFor_snoc] at h1
              rw [if_pos rfl] at h1
              omega
            have hccnt : 1 ≤ newLogsFor p (bs.newLogs ++
                [(⟨p, t, status, verify, verifyTypeName verify,
                  String.mk line, sn⟩ : AttendanceLog)]) := by
              rw [newLogsFor_snoc, if_pos rfl]
              omega
            have hnone := findOpenIdx_none_spec hidx
            refine ⟨?_, ?_, ?_⟩
            · intro j
              rcases hJ1 j with hL | ⟨s2, t2, h1, h2, h3⟩
              · exact Or.inl hL
              · exact Or.inr ⟨s2, t2, h1, h2,
                  le_trans h3 (newLogsFor_le_append _ _ _)⟩
            · intro ns hns
              rcases List.mem_append.mp hns with hns | hns
              · exact le_trans (hJ2 ns hns) (newLogsFor_le_append _ _ _)
              · rw [List.mem_singleton.mp hns]
                exact hccnt
            · intro q
              show openCount q (bs.curSessions ++
                (bs.newSessions ++
                  [(⟨p, t, none, "open"⟩ : AttendanceSession)])) ≤ 1
              by_cases hq : q = p
              · subst hq
                have hzero : openCount q
                    (bs.curSessions ++ bs.newSessions) = 0 := by
                  unfold openCount
                  rw [List.countP_eq_zero]
                  intro x hx
                  simp only [decide_eq_true_eq, not_and]
                  intro hpin hopen
                  rcases List.mem_append.mp hx with hx | hx
                  · obtain ⟨j, hj⟩ := get?_exists_of_mem hx
                    rcases hJ1 j with hL | ⟨s2, t2, h1, h2, h3⟩
                    · have hmem : x ∈ bs.snapshot.sessions :=
                        mem_of_get?_eq_some (by rw [← hL]; exact hj)
                      exact hnone x hmem ⟨hpin, hopen⟩
                    · rw [hj] at h2
                      have hx2 := Option.some_injective _ h2
                      rw [hx2] at hopen
                      exact Option.noConfusion hopen
                  · have := hJ2 x hx
                    rw [hpin, hp0] at this
                    omega
                have hone : openCount q
                    [(⟨q, t, none, "open"⟩ : AttendanceSession)] = 1 := by
                  unfold openCount
                  simp
                rw [openCount_append] at hzero
                rw [openCount_append, openCount_append, hone]
                omega
              · have h3 := hJ3 q
                have hzs : openCount q
                    [(⟨p, t, none, "open"⟩ : AttendanceSession)] = 0 := by
                  unfold openCount
                  rw [List.countP_eq_zero]
                  intro x hx
                  rw [List.mem_singleton.mp hx]
                  dsimp only
                  simp only [decide_eq_true_eq, not_and]
                  intro he
                  exact absurd he.symm hq
                rw [openCount_append] at h3
                rw [openCount_append, openCount_append, hzs]
                omega

theorem runLines_BatchInv (sn : String) (lines : List (List Char)) :
    ∀ bs : BatchState, BatchInv bs →
      (∀ q, newLogsFor q (runLines sn bs lines).newLogs ≤ 1) →
      BatchInv (runLines sn bs lines) := by
  induction lines with
  | nil => intro bs hJ _; exact hJ
  | cons line rest ih =>
      intro bs hJ hcount
      show BatchInv (runLines sn (processLine sn bs line) rest)
      refine ih (processLine sn bs line) ?_ (fun q => hcount q)
      refine processLine_BatchInv sn bs line hJ ?_
      intro q
      obtain ⟨suf, hsuf⟩ :=
        runLines_newLogs_mono sn rest (processLine sn bs line)
      have h : newLogsFor q
          (runLines sn (processLine sn bs line) rest).newLogs ≤ 1 := hcount q
      rw [hsuf] at h
      exact le_trans (newLogsFor_le_append _ _ _) h

theorem attlogBatch_openInv (sn : String) (text : List Char) (st : Store)
    (hInv : OpenInv st)
    (hB : ∀ q, newLogsFor q (processAttlogBody sn text st).newLogs ≤ 1) :
    OpenInv (commitBatch (processAttlogBody sn text st)) := by
  have hJ0 : BatchInv (initBatch st) := by
    refine ⟨fun i => Or.inl rfl,
      fun ns hns => absurd hns (List.not_mem_nil ns), ?_⟩
    intro q
    show openCount q (st.sessions ++ []) ≤ 1
    rw [List.append_nil]
    exact hInv q
  have hJ := runLines_BatchInv sn (pySplitlines text) (initBatch st) hJ0 hB
  intro q
  show openCount q ((processAttlogBody sn text st).curSessions ++
    (processAttlogBody sn text st).newSessions) ≤ 1
  exact hJ.2.2 q

theorem applyAck_store (f : String) (a : AckFields) (s : ServerState) :
    (applyAck f a s).store = s.store := by
  simp only [applyAck]
  split <;> split <;> rfl

theorem cdataGet_store (a b c : Option String) (s : ServerState) :
    (iclock_cdata_get a b c s).2.store = s.store := by
  simp only [iclock_cdata_get]
  split <;> rfl

theorem getrequest_store (q : Option String) (s : ServerState) :
    (iclock_getrequest q s).2.store = s.store := by
  simp only [iclock_getrequest]
  split
  · rfl
  · split
    · rfl
    · split <;> rfl

theorem devicecmd_store (a : Option String) (body : List Char)
    (s : ServerState) :
    (iclock_devicecmd a body s).2.store = s.store := by
  simp only [iclock_devicecmd]
  cases hE : extractPushAckFields (pyStrip body) with
  | none => rfl
  | some ack =>
      dsimp only
      exact applyAck_store (a.getD "") ack s

theorem cdataPost_store (a b : Option String) (body : List Char)
    (ok : Bool) (s : ServerState) :
    (iclock_cdata_post a b body ok s).2.store =
      if b.getD "unknown" = "ATTLOG" ∧ ok = true then
        commitBatch (processAttlogBody (a.getD "unknown") (pyStrip body)
          s.store)
      else s.store := by
  simp only [iclock_cdata_post]
  cases hE : extractPushAckFields (pyStrip body) with
  | none =>
      dsimp only
      by_cases ht : b.getD "unknown" = "ATTLOG" <;> cases ok <;>
        simp [ht]
  | some ack =>
      dsimp only
      have hst := applyAck_store (a.getD "unknown") ack
        { s with lastIclock := pushCap s.lastIclock ⟨"POST", a, b, String.mk body⟩ }
      by_cases ht : b.getD "unknown" = "ATTLOG" <;> cases ok <;>
        simp [ht, hst]

/-- C4 counterexample: a single two-line batch for a badge with no
sessions creates two open sessions for that badge (the open-session
query sees only committed rows), violating the at-most-one-open
invariant. -/
theorem open_session_invariant_counterexample :
    openCount "7" (attlogStore "AAML1"
      "7\t2024-01-10 08:00:00\t0\t1\n7\t2024-01-10 17:00:00\t1\t1\n".toList
      true emptyStore).sessions = 2 ∧
    ¬ OpenInv (attlogStore "AAML1"
      "7\t2024-01-10 08:00:00\t0\t1\n7\t2024-01-10 17:00:00\t1\t1\n".toList
      true emptyStore) := by
  constructor
  · decide
  · intro h
    have h7 := h "7"
    have e : openCount "7" (attlogStore "AAML1"
        "7\t2024-01-10 08:00:00\t0\t1\n7\t2024-01-10 17:00:00\t1\t1\n".toList
        true emptyStore).sessions = 2 := by decide
    omega

/-- C4 as amended: every operation of the subsystem preserves "at most
one open session per badge id", provided each ATTLOG upload stores at
most one new event per badge id in its batch (single-event uploads in
particular); an upload storing two events for one badge in the same
batch violates the invariant (see the counterexample).  A new event for
a badge with an open session closes that session rather than opening a
second one. -/
theorem open_session_invariant (op : Op) (s : ServerState)
    (hInv : OpenInv s.store)
    (hBatch : ∀ (a b : Option String) (body : List Char) (ok : Bool),
      op = Op.cdataPost a b body ok →
      ∀ q, newLogsFor q (processAttlogBody (a.getD "unknown")
        (pyStrip body) s.store).newLogs ≤ 1) :
    OpenInv (applyOp op s).store := by
  cases op with
  | cdataGet a b c =>
      show OpenInv (iclock_cdata_get a b c s).2.store
      rw [cdataGet_store]
      exact hInv
  | cdataPost a b body ok =>
      show OpenInv (iclock_cdata_post a b body ok s).2.store
      rw [cdataPost_store]
      split
      · exact attlogBatch_openInv (a.getD "unknown") (pyStrip body) s.store
          hInv (hBatch a b body ok rfl)
      · exact hInv
  | getrequest q =>
      show OpenInv (iclock_getrequest q s).2.store
      rw [getrequest_store]
      exact hInv
  | devicecmd a body =>
      show OpenInv (iclock_devicecmd a body s).2.store
      rw [devicecmd_store]
      exact hInv
  | adminClear sn => exact hInv

/-- Witness for the amended C4: a one-event upload on the empty store. -/
theorem open_session_invariant_witness :
    OpenInv (applyOp (Op.cdataPost (some "AAML1") (some "ATTLOG")
      "7\t2024-01-10 08:00:00\t0\t1\n".toList true)
      (initState emptyStore)).store :=
  open_session_invariant
    (Op.cdataPost (some "AAML1") (some "ATTLOG")
      "7\t2024-01-10 08:00:00\t0\t1\n".toList true)
    (initState emptyStore)
    (by
      intro q
      show openCount q ([] : List AttendanceSession) ≤ 1
      norm_num [openCount])
    (by
      intro a b body ok he q
      cases he
      have hlen : (processAttlogBody ((some "AAML1").getD "unknown")
          (pyStrip "7\t2024-01-10 08:00:00\t0\t1\n".toList)
          (initState emptyStore).store).newLogs.length = 1 := by decide
      exact le_trans (List.countP_le_length _) (le_of_eq hlen))

end PCMAssets
